import Mathlib

/-!
# Verification of the librealsense on-chip calibration manager
Shallow embedding of `src/common/on-chip-calib.cpp` (librealsense viewer
on-chip calibration workflows) together with proofs of the specified
properties.  Machine integers are modelled as `Nat` (uint16 values are kept
`< 2 ^ 16` by explicit hypotheses or `% 65536` at the single narrowing cast),
float arithmetic on the verified paths is exact and is modelled in `ℚ`, and
fallible code returns `Except`.
-/

namespace OnChipCalib

/-! ## fill_missing_data (on-chip-calib.cpp:828-868)

The C function works on `uint16_t data[256]` considered up to `size`.
We model the table as a `List ℕ` (entries `< 2 ^ 16`) and make every array
access bounds-checked, so that the out-of-bounds read that the C code can
perform is observable as `FillErr.oob` instead of undefined behaviour. -/

inductive FillErr where
  /-- an array access outside `[0, data.length)` (undefined behaviour in C) -/
  | oob : FillErr
  /-- the `"There is no enought valid data in the array!"` runtime_error -/
  | notEnoughData : FillErr
deriving DecidableEq

/-- Bounds-checked read `data[i]`. -/
def getE (d : List ℕ) (i : ℕ) : Except FillErr ℕ :=
  match d.get? i with
  | some v => Except.ok v
  | none => Except.error FillErr.oob

/-- Bounds-checked write `data[i] = v`. -/
def setE (d : List ℕ) (i v : ℕ) : Except FillErr (List ℕ) :=
  if i < d.length then Except.ok (d.set i v) else Except.error FillErr.oob

/-- `while (data[start++] == 0) ++counter;` — scan for the first non-zero
entry starting at `i`; the scan is not bounded by `size`, so on an all-zero
array it walks off the end (the C code reads `data[data.length]`).
`fuel` is initialised to `d.length`; when it runs out the scan is exactly at
index `d.length`, i.e. at the out-of-bounds read. -/
def leadScanGo (d : List ℕ) : ℕ → ℕ → Except FillErr ℕ
  | _, 0 => Except.error FillErr.oob
  | i, fuel + 1 =>
    match d.get? i with
    | none => Except.error FillErr.oob
    | some v => if v = 0 then leadScanGo d (i + 1) fuel else Except.ok i

/-- `for (int i = 0; i < counter; ++i) data[i] = data[counter];` —
fill the `n` leading zeros (indices `i, i+1, ...`) with the value `v` of the
first non-zero entry. -/
def fillLeadGo (v : ℕ) : ℕ → ℕ → List ℕ → Except FillErr (List ℕ)
  | _, 0, d => Except.ok d
  | i, n + 1, d =>
    match setE d i v with
    | Except.ok d1 => fillLeadGo v (i + 1) n d1
    | Except.error e => Except.error e

/-- The `static_cast<uint16_t>` of the interpolated float.  On the reachable
paths the float arithmetic is exact, the value is non-negative and the cast
truncates toward zero, i.e. takes the floor; the model clamps a (C-undefined)
negative value to `0` and reduces modulo `2 ^ 16`. -/
def toU16 (q : ℚ) : ℕ := (⌊q⌋).toNat % 65536

/-- `for (int j = start; j < end; ++j) data[j] = (uint16_t)(tmp*(j-start+1)+data[start-1]+0.5f);`
`n = end - start` counts the remaining iterations, `j` is the loop index. -/
def fillGapGo (tmp : ℚ) (ds1 s : ℕ) : ℕ → ℕ → List ℕ → Except FillErr (List ℕ)
  | _, 0, d => Except.ok d
  | j, n + 1, d =>
    match setE d j (toU16 (tmp * ((j : ℚ) - (s : ℚ) + 1) + (ds1 : ℚ) + 1 / 2)) with
    | Except.ok d1 => fillGapGo tmp ds1 s (j + 1) n d1
    | Except.error e => Except.error e

/-- The main loop `for (int i = 0; i < size; ++i) { ... }` of
`fill_missing_data`; `fuel = size - i` counts the remaining iterations.
Returns the final array together with the final values of `start` and `end`.
`tmp = (data[end] - data[start-1]) / (end - start + 1)` is float arithmetic
in C; both operands are (promoted) ints, modelled exactly in `ℚ`. -/
def midGo : ℕ → ℕ → ℕ → ℕ → List ℕ → Except FillErr (List ℕ × ℕ × ℕ)
  | 0, _, s, e, d => Except.ok (d, s, e)
  | fuel + 1, i, s, e, d =>
    match getE d i with
    | Except.error err => Except.error err
    | Except.ok di =>
      let s1 := if di = 0 then i else s
      let e1 := if s1 ≠ 0 ∧ di ≠ 0 then i else e
      if s1 ≠ 0 ∧ e1 ≠ 0 then
        match getE d e1 with
        | Except.error err => Except.error err
        | Except.ok de =>
          match getE d (s1 - 1) with
          | Except.error err => Except.error err
          | Except.ok ds1 =>
            let tmp : ℚ := ((de : ℚ) - (ds1 : ℚ)) / ((e1 : ℚ) - (s1 : ℚ) + 1)
            match fillGapGo tmp ds1 s1 s1 (e1 - s1) d with
            | Except.error err => Except.error err
            | Except.ok d1 => midGo fuel (i + 1) 0 0 d1
      else midGo fuel (i + 1) s1 e1 d

/-- `if (start != 0 && end == 0) for (int i = start; i < size; ++i) data[i] = data[start-1];`
`n = size - i` counts the remaining iterations; the source re-reads
`data[start-1]` on every iteration. -/
def tailFillGo (s : ℕ) : ℕ → ℕ → List ℕ → Except FillErr (List ℕ)
  | _, 0, d => Except.ok d
  | i, n + 1, d =>
    match getE d (s - 1) with
    | Except.error e => Except.error e
    | Except.ok v =>
      match setE d i v with
      | Except.ok d1 => tailFillGo s (i + 1) n d1
      | Except.error e => Except.error e

/-- `on_chip_calib_manager::fill_missing_data(uint16_t data[256], int size)`
(on-chip-calib.cpp:828).  `counter` is the number of leading zeros; the C
local `start` equals `counter + 1` after the scan, so the guard
`start + 2 > size` is `counter + 1 + 2 > size`. -/
def fill_missing_data (data : List ℕ) (size : ℕ) : Except FillErr (List ℕ) :=
  match leadScanGo data 0 data.length with
  | Except.error e => Except.error e
  | Except.ok counter =>
    if counter + 1 + 2 > size then Except.error FillErr.notEnoughData
    else
      match getE data counter with
      | Except.error e => Except.error e
      | Except.ok v =>
        match fillLeadGo v 0 counter data with
        | Except.error e => Except.error e
        | Except.ok d1 =>
          match midGo size 0 0 0 d1 with
          | Except.error e => Except.error e
          | Except.ok (d2, s, e) =>
            if s ≠ 0 ∧ e = 0 then tailFillGo s s (size - s) d2
            else Except.ok d2



/-- Input refuting the unamended C1 claim: an interior run of two zeros
(256-slot table, considered up to size 4). -/
def gapTable : List ℕ := 5 :: 0 :: 0 :: 9 :: List.replicate 252 0

/-- The table produced by `fill_missing_data gapTable 4`: the zero at index 1
survives because the interpolation pass only fills the last zero of each run. -/
def gapTableOut : List ℕ := 5 :: 0 :: 5 :: 9 :: List.replicate 252 0

/-! ## ON_CHIP_OB_CALIB health decoding (on-chip-calib.cpp:1386-1400)

`_health` carries the packed firmware return code; the code casts it to int
and unpacks two 12-bit magnitudes and two sign bits.  The packed code is
modelled as `ℕ` and the float divisions by 1000.0f in `ℚ`. -/

/-- `int h_both = (int)_health; h_1 = h_both & 0xFFF; h_2 = (h_both & 0xFFF000) >> 12;
sign = (h_both & 0x0F000000) >> 24; _health_1 = h_1/1000 (negated if sign & 1);
_health_2 = h_2/1000 (negated if sign & 2);` -/
def decode_ob_health (h_both : ℕ) : ℚ × ℚ :=
  let h_1 := h_both &&& 0xFFF
  let h_2 := (h_both &&& 0xFFF000) >>> 12
  let sign := (h_both &&& 0x0F000000) >>> 24
  let health_1 : ℚ := (h_1 : ℚ) / 1000
  let health_1 := if sign &&& 1 ≠ 0 then -health_1 else health_1
  let health_2 : ℚ := (h_2 : ℚ) / 1000
  let health_2 := if sign &&& 2 ≠ 0 then -health_2 else health_2
  (health_1, health_2)

/-! ## apply_calib (on-chip-calib.cpp:2144-2150) -/

/-- `on_chip_calib_manager::apply_calib(bool use_new)`: selects `_new_calib`
or `_old_calib` and calls the device's `set_calibration_table` only when the
selected table is non-empty.  The result records the call made:
`some t` = `set_calibration_table(t)`, `none` = no call. -/
def apply_calib (new_calib old_calib : List ℕ) (use_new : Bool) : Option (List ℕ) :=
  let calib_table := if use_new then new_calib else old_calib
  if calib_table.length ≠ 0 then some calib_table else none

/-! ## Focal-length calibration table patch (on-chip-calib.cpp:1699-1714) -/

/-- Modelled from the spec: the layout of `librealsense::ds::coefficients_table`
with its `librealsense::ds::table_header` (declared in ds-private.h, which is
not under src/): a fixed-size header — bytes `header_rest` plus the 4-byte
`crc32` field — followed by the table body, inside which sit the right-camera
intrinsic x-scale float fields (`intrinsic_right.x.x`, `intrinsic_right.x.y`,
modelled in ℚ) between the remaining body bytes `body_pre`/`body_post`. -/
structure CoefficientsTable where
  header_rest : List ℕ
  crc32 : ℕ
  body_pre : List ℕ
  intrinsic_right_xx : ℚ
  intrinsic_right_xy : ℚ
  body_post : List ℕ

/-- Modelled from the spec: the bytes after the fixed-size header
(`_new_calib.data() + sizeof(table_header)`), over which the checksum is
computed; `enc` is the 4-byte float serialisation, a parameter of the model. -/
def tableBody (enc : ℚ → List ℕ) (t : CoefficientsTable) : List ℕ :=
  t.body_pre ++ enc t.intrinsic_right_xx ++ enc t.intrinsic_right_xy ++ t.body_post

/-- Total serialised size of the table (header bytes + crc32 field + body). -/
def tableSize (enc : ℚ → List ℕ) (t : CoefficientsTable) : ℕ :=
  t.header_rest.length + 4 + (tableBody enc t).length

/-- on-chip-calib.cpp:1704-1713: `ratio_to_apply = corrected_ratio/100 + 1;`
copy `_old_calib`, scale `intrinsic_right.x.x/.x.y` by it, recompute the CRC32
over the body and store it in the header.  `helpers::calc_crc32` is not under
src/ and is modelled as the parameter `crc`. -/
def calibrate_fl_patch (crc : List ℕ → ℕ) (enc : ℚ → List ℕ)
    (t : CoefficientsTable) (corrected_r : ℚ) : CoefficientsTable :=
  let ratio_to_apply := corrected_r / 100 + 1
  let t1 := { t with intrinsic_right_xx := t.intrinsic_right_xx * ratio_to_apply,
                     intrinsic_right_xy := t.intrinsic_right_xy * ratio_to_apply }
  { t1 with crc32 := crc (tableBody enc t1) }

/-! ## uvmapping_calib::calibrate (on-chip-calib.cpp:3700-3798)

`float`/`double` arithmetic is modelled in ℚ; `sqrtf` (used only for the two
error outputs) and the geometric helpers `rs2_deproject_pixel_to_point` /
`rs2_transform_point_to_point` (librealsense rsutil, not under src/) are
parameters of the model. -/

structure Intrin where
  ppx : ℚ
  ppy : ℚ
  fx : ℚ
  fy : ℚ

/-- The four correspondence points and the color intrinsics held by a
`uvmapping_calib` (constructed with `pt_num = 4`); `max_change` is the fixed
`_max_change` member. -/
structure UvmappingCalib where
  left_x : Fin 4 → ℚ
  left_y : Fin 4 → ℚ
  left_z : Fin 4 → ℚ
  color_x : Fin 4 → ℚ
  color_y : Fin 4 → ℚ
  color_intrin : Intrin
  max_change : ℚ

/-- The external geometry calls, as parameters: `deproj x y z` =
deproject left pixel (x, y) at depth z to a 3D point, `transf` = apply the
left→color extrinsic. -/
structure UvGeom where
  deproj : ℚ → ℚ → ℚ → ℚ × ℚ × ℚ
  transf : ℚ × ℚ × ℚ → ℚ × ℚ × ℚ

/-- `pixel_color_norm[i] = (point_color.x / point_color.z, point_color.y / point_color.z)`
(on-chip-calib.cpp:3714-3720). -/
def uv_norm (g : UvGeom) (c : UvmappingCalib) (i : Fin 4) : ℚ × ℚ :=
  let point_color := g.transf (g.deproj (c.left_x i) (c.left_y i) (c.left_z i))
  (point_color.1 / point_color.2.2, point_color.2.1 / point_color.2.2)

/-- The `for (int i = 0; i < 4; ++i)` accumulations, unrolled (the C loop has
exactly four iterations). -/
def sum4 (f : Fin 4 → ℚ) : ℚ := f 0 + f 1 + f 2 + f 3

def uv_x (g : UvGeom) (c : UvmappingCalib) : ℚ := sum4 (fun i => (uv_norm g c i).1)

def uv_y (g : UvGeom) (c : UvmappingCalib) : ℚ := sum4 (fun i => (uv_norm g c i).2)

def uv_cx (c : UvmappingCalib) : ℚ := sum4 c.color_x

def uv_cy (c : UvmappingCalib) : ℚ := sum4 c.color_y

def uv_x2 (g : UvGeom) (c : UvmappingCalib) : ℚ :=
  sum4 (fun i => (uv_norm g c i).1 * (uv_norm g c i).1)

def uv_y2 (g : UvGeom) (c : UvmappingCalib) : ℚ :=
  sum4 (fun i => (uv_norm g c i).2 * (uv_norm g c i).2)

def uv_cxc (g : UvGeom) (c : UvmappingCalib) : ℚ :=
  sum4 (fun i => c.color_x i * (uv_norm g c i).1)

def uv_cyc (g : UvGeom) (c : UvmappingCalib) : ℚ :=
  sum4 (fun i => c.color_y i * (uv_norm g c i).2)

/-- `d_x = 4 * x_2 - x * x` (on-chip-calib.cpp:3765). -/
def uv_dx (g : UvGeom) (c : UvmappingCalib) : ℚ := 4 * uv_x2 g c - uv_x g c * uv_x g c

/-- `d_y = 4 * y_2 - y * y` (on-chip-calib.cpp:3773). -/
def uv_dy (g : UvGeom) (c : UvmappingCalib) : ℚ := 4 * uv_y2 g c - uv_y g c * uv_y g c

/-- The outputs of `uvmapping_calib::calibrate`: the bool return together with
the final values of the six by-reference out-parameters. -/
structure UvResult where
  ret : Bool
  err_before : ℚ
  err_after : ℚ
  ppx : ℚ
  ppy : ℚ
  fx : ℚ
  fy : ℚ

/-- `uvmapping_calib::calibrate(err_before, err_after, ppx, ppy, fx, fy)`
(on-chip-calib.cpp:3700-3798).  `ppx0 ppy0 fx0 fy0` are the caller-supplied
values of the in-out reference parameters, kept when an axis solve is skipped
(`d ≤ 0.01`); `sq` is `sqrtf` applied to the squared pixel distance. -/
def uvmapping_calibrate (sq : ℚ → ℚ) (g : UvGeom) (c : UvmappingCalib)
    (ppx0 ppy0 fx0 fy0 : ℚ) : UvResult :=
  let norm := uv_norm g c
  let pixel_color := fun i : Fin 4 =>
    ((norm i).1 * c.color_intrin.fx + c.color_intrin.ppx,
     (norm i).2 * c.color_intrin.fy + c.color_intrin.ppy)
  let diff := fun i : Fin 4 =>
    sq (((pixel_color i).1 - c.color_x i) * ((pixel_color i).1 - c.color_x i) +
        ((pixel_color i).2 - c.color_y i) * ((pixel_color i).2 - c.color_y i))
  let err_before := sum4 diff / 4
  let fp_x := if uv_dx g c > 1 / 100 then
      ((1 / uv_dx g c) * (4 * uv_cxc g c - uv_x g c * uv_cx c),
       (1 / uv_dx g c) * (uv_x2 g c * uv_cx c - uv_x g c * uv_cxc g c))
    else (fx0, ppx0)
  let fp_y := if uv_dy g c > 1 / 100 then
      ((1 / uv_dy g c) * (4 * uv_cyc g c - uv_y g c * uv_cy c),
       (1 / uv_dy g c) * (uv_y2 g c * uv_cy c - uv_y g c * uv_cyc g c))
    else (fy0, ppy0)
  let err_after := sum4 (fun i : Fin 4 =>
    sq (((norm i).1 * fp_x.1 + fp_x.2 - c.color_x i) *
          ((norm i).1 * fp_x.1 + fp_x.2 - c.color_x i) +
        ((norm i).2 * fp_y.1 + fp_y.2 - c.color_y i) *
          ((norm i).2 * fp_y.1 + fp_y.2 - c.color_y i))) / 4
  { ret := decide (|c.color_intrin.ppx - fp_x.2| < c.max_change) &&
           decide (|c.color_intrin.ppy - fp_y.2| < c.max_change) &&
           decide (|c.color_intrin.fx - fp_x.1| < c.max_change) &&
           decide (|c.color_intrin.fy - fp_y.1| < c.max_change),
    err_before := err_before, err_after := err_after,
    ppx := fp_x.2, ppy := fp_y.2, fx := fp_x.1, fy := fp_y.1 }

/-- Concrete geometry for witnesses: deprojection to the unit plane and an
identity extrinsic, so `uv_norm` returns the left pixel itself. -/
def uvGeomW : UvGeom := { deproj := fun px py _ => (px, py, 1), transf := id }

/-- Concrete witness input with all x-coordinates equal (degenerate x-axis:
`d_x = 4·4 - 4·4 = 0`) and spread y-coordinates (`d_y = 4·14 - 36 = 20`). -/
def uvCalibW : UvmappingCalib :=
  { left_x := fun _ => 1, left_y := fun i => ((i : ℕ) : ℚ), left_z := fun _ => 1,
    color_x := fun _ => 2, color_y := fun i => ((i : ℕ) : ℚ),
    color_intrin := { ppx := 0, ppy := 0, fx := 1, fy := 1 }, max_change := 1 }

/-! ## Workspace save/restore (on-chip-calib.cpp:396-410, 2104-2135) -/

/-- Injected outcomes for the viewer operations performed during restoration.
Per the source, `stop_viewer` (line 67) and `start_viewer` (line 396) both
wrap their work in `try { ... } catch (...) {}`, so in the model they always
return; a `false` effect flag means the streaming side effect did not land
(an internal exception was swallowed there). -/
structure ViewerEnv where
  stop_effect : Bool
  start_effect : Bool

/-- The manager/viewer state touched by `start_viewer`'s option save
(lines 401-410) and by `restore_workspace` (lines 2104-2135), plus the
session snapshot fields (`_in_3d_view`, `_synchronized`, `_post_processing`,
`_was_streaming`) captured at session start.  UI configurations are opaque
naturals; `savedUi`/`savedUiColor` model the `_ui`/`_ui_color` optionals. -/
structure WorkspaceState where
  restored : Bool
  is3dView : Bool
  syncEnable : Bool
  subUi : ℕ
  savedUi : Option ℕ
  subColorUi : ℕ
  savedUiColor : Option ℕ
  postProcessing : Bool
  streamsStopped : Bool
  streamsStarted : Bool
  supportsEmitter : Bool
  supportsThermal : Bool
  emitter : ℚ
  thermal : ℚ
  laser_status_prev : ℚ
  thermal_loop_prev : ℚ
  uvMapping : Bool
  in3d : Bool
  synchronized : Bool
  postProcSaved : Bool
  wasStreaming : Bool

/-- `on_chip_calib_manager::stop_viewer(invoke)` (on-chip-calib.cpp:67-100):
stops the running streams; the whole body is inside `try/catch(...)`, so the
call always returns. -/
def stop_viewer (env : ViewerEnv) (s : WorkspaceState) : WorkspaceState :=
  if env.stop_effect then { s with streamsStopped := true } else s

/-- on-chip-calib.cpp:401-410: on entry `start_viewer` saves the current
emitter / thermal-compensation option values into `laser_status_prev` /
`thermal_loop_prev` and overrides both options with 0. -/
def start_viewer_save (s : WorkspaceState) : WorkspaceState :=
  let s1 := if s.supportsEmitter then
      { s with laser_status_prev := s.emitter, emitter := 0 } else s
  if s1.supportsThermal then
    { s1 with thermal_loop_prev := s1.thermal, thermal := 0 } else s1

/-- `on_chip_calib_manager::start_viewer(w, h, fps, invoke)`
(on-chip-calib.cpp:396-669), as called from restoration with `(0,0,0)`:
option save/override, then the streaming work, all inside `try/catch`;
returns whether a frame arrived.  Stream selection is modelled separately
(see `select_fps_res`). -/
def start_viewer (env : ViewerEnv) (s : WorkspaceState) : Bool × WorkspaceState :=
  let s1 := start_viewer_save s
  if env.start_effect then (true, { s1 with streamsStarted := true }) else (false, s1)

/-- `on_chip_calib_manager::restore_workspace(invoke)`
(on-chip-calib.cpp:2104-2135): early-out on `_restored`; restore the viewer
flags, stop streams, restore the saved subdevice UI (and color UI for
UV-mapping), restore post-processing, restart streaming if it was on, then
set `_restored`.  The body is inside `try/catch(...)` and every viewer call
it makes catches internally, so the function always returns its state. -/
def restore_workspace (env : ViewerEnv) (s : WorkspaceState) : WorkspaceState :=
  if s.restored then s
  else
    let s1 := { s with is3dView := s.in3d, syncEnable := s.synchronized }
    let s2 := stop_viewer env s1
    let s3 := match s2.savedUi with
      | some u => { s2 with subUi := u, savedUi := none }
      | none => s2
    let s4 := if s3.uvMapping then
        match s3.savedUiColor with
        | some u => { s3 with subColorUi := u, savedUiColor := none }
        | none => s3
      else s3
    let s5 := { s4 with postProcessing := s4.postProcSaved }
    let s6 := if s5.wasStreaming then (start_viewer env s5).2 else s5
    { s6 with restored := true }

/-- Concrete state for the C3 witness. -/
def wsW : WorkspaceState :=
  { restored := false, is3dView := false, syncEnable := false, subUi := 7,
    savedUi := some 3, subColorUi := 8, savedUiColor := some 4,
    postProcessing := false, streamsStopped := false, streamsStarted := false,
    supportsEmitter := true, supportsThermal := true, emitter := 1, thermal := 1,
    laser_status_prev := 0, thermal_loop_prev := 0, uvMapping := false,
    in3d := true, synchronized := true, postProcSaved := true, wasStreaming := true }

/-! ## Stream negotiation (on-chip-calib.cpp:571-606) -/

/-- The subdevice stream-selection UI state used by `start_viewer`'s
FPS/resolution selection. -/
structure StreamUI where
  res_values : List (ℕ × ℕ)
  fps_values : List ℕ
  selected_res_id : ℕ
  selected_fps_id : ℕ

/-- `subdevice_model::is_selected_combination_supported()`, an external viewer
call, abstracted as a predicate `sup` on the selected (resolution, fps)
values. -/
def combination_supported (sup : ℕ × ℕ → ℕ → Bool) (st : StreamUI) : Bool :=
  sup (st.res_values.getD st.selected_res_id (0, 0))
    (st.fps_values.getD st.selected_fps_id 0)

/-- `for (i = 0; i < values.size(); i++) { if (match) selected = i; }` — the
selection loops at lines 572-584 and 599-604 keep the LAST matching index
(no break); `acc` is the incoming selection, kept when nothing matches. -/
def selectLastIdx {α : Type} (p : α → Bool) : List α → ℕ → ℕ → ℕ
  | [], _, acc => acc
  | v :: rest, i, acc => selectLastIdx p rest (i + 1) (if p v then i else acc)

/-- on-chip-calib.cpp:589-594: sweep the FPS ids in order; the loop writes
`selected_shared_fps_id = i` and then breaks as soon as the combination is
supported, so after an unsuccessful full sweep the last id stays selected.
`supAt i` is `is_selected_combination_supported()` with fps id `i` (the
resolution is held fixed during the sweep). -/
def sweepFpsGo (supAt : ℕ → Bool) : List ℕ → ℕ → ℕ → ℕ
  | [], _, cur => cur
  | _ :: rest, i, _ => if supAt i then i else sweepFpsGo supAt rest (i + 1) i

/-- The FPS sweep of lines 589-594 as run on state `st`: resolution held
fixed at the current selection, every fps id tried in order. -/
def fpsSweep (sup : ℕ × ℕ → ℕ → Bool) (st : StreamUI) : ℕ :=
  sweepFpsGo (fun i => sup (st.res_values.getD st.selected_res_id (0, 0))
    (st.fps_values.getD i 0)) st.fps_values 0 st.selected_fps_id

/-- `kvp.first == 640 && kvp.second == 480` (lines 601-602). -/
def vgaP : ℕ × ℕ → Bool := fun kvp => kvp.1 == 640 && kvp.2 == 480

/-- on-chip-calib.cpp:586-606: fallback negotiation when the selected
combination is unsupported: (1) sweep FPS values holding the resolution
fixed, keeping the first supported one; (2) if still unsupported, select the
640x480 resolution entry. -/
def negotiate_streams (sup : ℕ × ℕ → ℕ → Bool) (st : StreamUI) : StreamUI :=
  if ¬ combination_supported sup st then
    let st1 := { st with selected_fps_id := fpsSweep sup st }
    if ¬ combination_supported sup st1 then
      { st1 with selected_res_id := selectLastIdx vgaP st1.res_values 0 st1.selected_res_id }
    else st1
  else st

/-- on-chip-calib.cpp:571-606: the full FPS/resolution selection — pick the
last index matching the requested fps and (w, h), then run the fallback
negotiation. -/
def select_fps_res (sup : ℕ × ℕ → ℕ → Bool) (w h fps : ℕ) (st0 : StreamUI) : StreamUI :=
  let fpsSel := selectLastIdx (fun v => v == fps) st0.fps_values 0 st0.selected_fps_id
  let st1 := { st0 with selected_fps_id := fpsSel }
  let resSel := selectLastIdx (fun kvp => kvp.1 == w && kvp.2 == h) st1.res_values 0
    st1.selected_res_id
  let st2 := { st1 with selected_res_id := resSel }
  negotiate_streams sup st2

/-- Concrete state for the C8 witness: requested combination (1280, 720) @ 60
is unsupported, (1280, 720) @ 30 is. -/
def streamUIW : StreamUI :=
  { res_values := [(640, 480), (1280, 720)], fps_values := [60, 30],
    selected_res_id := 1, selected_fps_id := 0 }

/-- Support predicate for the C8 witness. -/
def supW : ℕ × ℕ → ℕ → Bool := fun r f => r.1 == 1280 && r.2 == 720 && f == 30

/-! ## get_depth_metrics (on-chip-calib.cpp:693-804) -/

/-- Per-frame result of `depth_quality::analyze_depth_image` as observed by
the `on_frame` callback (lines 709-760): the fill rate is pushed for every
frame, the RMS percentage only when the plane fit succeeded. The frame stream
is the function `frames`. -/
structure FrameSample where
  fill : ℚ
  rms : ℚ
  plane_fit : Bool

/-- Fill rates pushed by one 31-frame bundle starting at frame `start`. -/
def bundleFills (frames : ℕ → FrameSample) (start : ℕ) : List ℚ :=
  ((List.range 31).map (fun k => frames (start + k))).map FrameSample.fill

/-- RMS values pushed by one 31-frame bundle (plane-fit frames only). -/
def bundleRms (frames : ℕ → FrameSample) (start : ℕ) : List ℚ :=
  (((List.range 31).map (fun k => frames (start + k))).filter
    (fun fr => fr.plane_fit)).map FrameSample.rms

/-- The square of `new_rms_std = sqrt(Σ rms² / n)` for one bundle.  The loop
condition compares square roots of non-negative quantities, so it is modelled
exactly on the squares (`a < 0.8·b ↔ a² < 0.64·b²` and `a > 10 ↔ a² > 100`
for `a, b ≥ 0`); on an empty RMS list the C code gets `0.0/0 = NaN`, whose
comparisons are false, matching ℚ's `0/0 = 0` (both exit the loop). -/
def bundleNewSq (frames : ℕ → FrameSample) (start : ℕ) : ℚ :=
  ((bundleRms frames start).map (fun v => v * v)).sum /
    ((bundleRms frames start).length : ℚ)

def insertQ (x : ℚ) : List ℚ → List ℚ
  | [] => [x]
  | y :: rest => if x ≤ y then x :: y :: rest else y :: insertQ x rest

/-- `std::sort` on the collected samples (only sortedness is relevant). -/
def sortQ : List ℚ → List ℚ
  | [] => []
  | x :: rest => insertQ x (sortQ rest)

/-- `sorted[size / 2]` with the empty-list guard of lines 791-799. -/
def medianQ (l : List ℚ) : ℚ :=
  if (sortQ l).length = 0 then 0 else (sortQ l).getD ((sortQ l).length / 2) 0

/-- The do/while loop of `get_depth_metrics` (on-chip-calib.cpp:762-786):
one call per 31-frame bundle.  `fills` accumulates across bundles
(`fill_rates` is never cleared) while the RMS list is rebuilt each bundle
(`rmses.clear()`); `prevSq` is the square of `rms_std`, `count` the retry
counter of `(new < rms_std*0.8 && new > 10) && count++ < 10`.  The fuel bound
11 is never reached: the `count` guard stops at the 11th bundle. -/
def gdmGo (frames : ℕ → FrameSample) : ℕ → List ℚ → ℕ → ℚ → ℕ → List ℚ × List ℚ
  | 0, fills, idx, _, _ => (fills ++ bundleFills frames idx, bundleRms frames idx)
  | fuel + 1, fills, idx, prevSq, count =>
    if bundleNewSq frames idx < prevSq * (16 / 25) ∧ bundleNewSq frames idx > 100 ∧
        count < 10 then
      gdmGo frames fuel (fills ++ bundleFills frames idx) (idx + 31)
        (bundleNewSq frames idx) (count + 1)
    else (fills ++ bundleFills frames idx, bundleRms frames idx)

/-- `on_chip_calib_manager::get_depth_metrics` (on-chip-calib.cpp:693-804):
run the bundle loop, sort both sample lists and return the elements at index
`size / 2`. -/
def get_depth_metrics (frames : ℕ → FrameSample) : ℚ × ℚ :=
  let lists := gdmGo frames 11 [] 0 (1000 * 1000) 0
  (medianQ lists.1, medianQ lists.2)

/-- Mean-square RMS of bundle number `j` (bundles are 31 frames each). -/
def gdmNewSq (frames : ℕ → FrameSample) (j : ℕ) : ℚ := bundleNewSq frames (31 * j)

/-- The `rms_std²` against which bundle `j` is compared (initially 1000²). -/
def gdmPrevSq (frames : ℕ → FrameSample) : ℕ → ℚ
  | 0 => 1000 * 1000
  | j + 1 => gdmNewSq frames j

/-- Bundle `j` satisfies the do/while continue condition. -/
def gdmContinue (frames : ℕ → FrameSample) (j : ℕ) : Prop :=
  gdmNewSq frames j < gdmPrevSq frames j * (16 / 25) ∧ gdmNewSq frames j > 100 ∧ j < 10

/-- Fill rates of bundles `[c, c + n)`, in sampling order. -/
def fillsFromTo (frames : ℕ → FrameSample) : ℕ → ℕ → List ℚ
  | _, 0 => []
  | c, n + 1 => bundleFills frames (31 * c) ++ fillsFromTo frames (c + 1) n

/-- Fill rates of every frame sampled in the first `n` bundles. -/
def allFills (frames : ℕ → FrameSample) (n : ℕ) : List ℚ :=
  (List.range (31 * n)).map (fun k => (frames k).fill)

/-- RMS values of every frame sampled in the first `n` bundles (what "median
RMS across all sampled frames" denotes for an all-plane-fit stream). -/
def allRms (frames : ℕ → FrameSample) (n : ℕ) : List ℚ :=
  (List.range (31 * n)).map (fun k => (frames k).rms)

/-- Two-bundle stream for the C7 counterexample: the first bundle has RMS 15%
(noisy, triggers a re-sample), the second RMS 2%. -/
def framesTwoBundles : ℕ → FrameSample :=
  fun n => if n < 31 then { fill := 80, rms := 15, plane_fit := true }
           else { fill := 80, rms := 2, plane_fit := true }

/-! ### Helper lemmas for `fill_missing_data` -/

theorem getD_set_self : ∀ (d : List ℕ) (i v : ℕ), i < d.length → (d.set i v).getD i 0 = v
  | [], _, _, h => by simp at h
  | _ :: _, 0, _, _ => rfl
  | _ :: l, i + 1, v, h => getD_set_self l i v (by simpa using h)

theorem getD_set_ne : ∀ (d : List ℕ) (i j v : ℕ), i ≠ j → (d.set i v).getD j 0 = d.getD j 0
  | [], _, _, _, _ => by simp
  | _ :: _, 0, 0, _, h => absurd rfl h
  | _ :: _, 0, _ + 1, _, _ => rfl
  | _ :: _, _ + 1, 0, _, _ => rfl
  | _ :: l, i + 1, j + 1, v, h => getD_set_ne l i j v (fun hh => h (by rw [hh]))

theorem set_of_length_le : ∀ (d : List ℕ) (k v : ℕ), d.length ≤ k → d.set k v = d
  | [], _, _, _ => rfl
  | _ :: _, 0, _, h => by simp at h
  | a :: l, k + 1, v, h => by
    simp only [List.set]
    rw [set_of_length_le l k v (by simpa using h)]

theorem get?_eq_getD (d : List ℕ) (i : ℕ) (h : i < d.length) :
    d.get? i = some (d.getD i 0) := by
  simp [List.getD_eq_getElem?_getD, List.getElem?_eq_getElem h]

theorem getE_ok (d : List ℕ) (i : ℕ) (h : i < d.length) :
    getE d i = Except.ok (d.getD i 0) := by
  unfold getE
  rw [get?_eq_getD d i h]

theorem setE_ok (d : List ℕ) (i v : ℕ) (h : i < d.length) :
    setE d i v = Except.ok (d.set i v) := by
  simp [setE, h]

theorem leadScanGo_all_zero (d : List ℕ) (hz : ∀ j, j < d.length → d.getD j 0 = 0) :
    ∀ (fuel i : ℕ), leadScanGo d i fuel = Except.error FillErr.oob := by
  intro fuel
  induction fuel with
  | zero => intro i; rfl
  | succ n ih =>
    intro i
    by_cases h : i < d.length
    · have hstep : leadScanGo d i (n + 1) =
          if d.getD i 0 = 0 then leadScanGo d (i + 1) n else Except.ok i := by
        rw [leadScanGo, get?_eq_getD d i h]
      rw [hstep, if_pos (hz i h)]
      exact ih (i + 1)
    · rw [leadScanGo, List.get?_eq_none.mpr (by omega)]

theorem leadScanGo_finds (d : List ℕ) (c : ℕ) (hc : c < d.length) (hnz : d.getD c 0 ≠ 0)
    (hzero : ∀ j, j < c → d.getD j 0 = 0) :
    ∀ (fuel i : ℕ), i ≤ c → c < i + fuel → leadScanGo d i fuel = Except.ok c := by
  intro fuel
  induction fuel with
  | zero => intro i _ h2; omega
  | succ n ih =>
    intro i h1 h2
    have hstep : leadScanGo d i (n + 1) =
        if d.getD i 0 = 0 then leadScanGo d (i + 1) n else Except.ok i := by
      rw [leadScanGo, get?_eq_getD d i (by omega)]
    rw [hstep]
    rcases Nat.eq_or_lt_of_le h1 with rfl | hlt
    · rw [if_neg hnz]
    · rw [if_pos (hzero i hlt)]
      exact ih (i + 1) hlt (by omega)

theorem fillLeadGo_run (v : ℕ) : ∀ (n i : ℕ) (d : List ℕ), i + n ≤ d.length →
    ∃ d1, fillLeadGo v i n d = Except.ok d1 ∧ d1.length = d.length ∧
      (∀ j, i ≤ j → j < i + n → d1.getD j 0 = v) ∧
      (∀ j, j < i ∨ i + n ≤ j → d1.getD j 0 = d.getD j 0) := by
  intro n
  induction n with
  | zero =>
    intro i d _
    exact ⟨d, rfl, rfl, fun j h1 h2 => absurd h2 (by omega), fun j _ => rfl⟩
  | succ m ih =>
    intro i d hle
    rw [fillLeadGo, setE_ok d i v (by omega)]
    obtain ⟨d1, hrun, hlen, hin, hout⟩ :=
      ih (i + 1) (d.set i v) (by rw [List.length_set]; omega)
    refine ⟨d1, hrun, by rw [hlen, List.length_set], ?_, ?_⟩
    · intro j h1 h2
      rcases Nat.eq_or_lt_of_le h1 with heq | hlt
      · rw [← heq, hout i (Or.inl (by omega)), getD_set_self d i v (by omega)]
      · exact hin j hlt (by omega)
    · intro j hj
      have hne : i ≠ j := by omega
      rcases hj with hj | hj
      · rw [hout j (Or.inl (by omega)), getD_set_ne d i j v hne]
      · rw [hout j (Or.inr (by omega)), getD_set_ne d i j v hne]

theorem toU16_pos (q : ℚ) (h1 : 1 ≤ q) (h2 : q < 65536) :
    toU16 q ≠ 0 ∧ toU16 q < 65536 := by
  have hfl : (1 : ℤ) ≤ ⌊q⌋ := by
    rw [Int.le_floor]; exact_mod_cast h1
  have hfu : ⌊q⌋ < (65536 : ℤ) := by
    rw [Int.floor_lt]; exact_mod_cast h2
  rw [toU16]
  omega

theorem fillGapGo_one (tmp : ℚ) (ds1 s : ℕ) (d : List ℕ) (h : s < d.length) :
    fillGapGo tmp ds1 s s 1 d =
      Except.ok (d.set s (toU16 (tmp * ((s : ℚ) - (s : ℚ) + 1) + (ds1 : ℚ) + 1 / 2))) := by
  rw [fillGapGo, setE_ok d s _ h]
  rfl

theorem adj_set (d : List ℕ) (size k v : ℕ) (hv : v ≠ 0)
    (hadj : ∀ j, j + 1 < size → d.getD j 0 = 0 → d.getD (j + 1) 0 ≠ 0) :
    ∀ j, j + 1 < size → (d.set k v).getD j 0 = 0 → (d.set k v).getD (j + 1) 0 ≠ 0 := by
  intro j hj hz
  by_cases hk : k = j
  · subst hk
    by_cases hlen : k < d.length
    · rw [getD_set_self d k v hlen] at hz
      exact absurd hz hv
    · rw [set_of_length_le d k v (by omega)] at hz ⊢
      exact hadj k hj hz
  · rw [getD_set_ne d k j v hk] at hz
    by_cases hk1 : k = j + 1
    · by_cases hlen : k < d.length
      · rw [hk1] at hlen
        rw [hk1, getD_set_self d (j + 1) v hlen]
        exact hv
      · rw [set_of_length_le d k v (by omega)]
        exact hadj j hj hz
    · rw [getD_set_ne d k (j + 1) v hk1]
      exact hadj j hj hz


theorem tailFillGo_one (s : ℕ) (d : List ℕ) (h1 : s - 1 < d.length) (h2 : s < d.length) :
    tailFillGo s s 1 d = Except.ok (d.set s (d.getD (s - 1) 0)) := by
  simp only [tailFillGo, getE_ok d (s - 1) h1, setE_ok d s _ h2]

theorem midGo_step_zero (n i s e : ℕ) (d : List ℕ) (hil : i < d.length)
    (hdi : d.getD i 0 = 0) (he : e = 0) :
    midGo (n + 1) i s e d = midGo n (i + 1) i 0 d := by
  subst he
  rw [midGo, getE_ok d i hil]
  simp only [hdi]
  norm_num

theorem midGo_step_nz (n i s e : ℕ) (d : List ℕ) (hil : i < d.length)
    (hdi : d.getD i 0 ≠ 0) (hs : s = 0) (he : e = 0) :
    midGo (n + 1) i s e d = midGo n (i + 1) 0 0 d := by
  subst hs
  subst he
  rw [midGo, getE_ok d i hil]
  simp only [if_neg hdi]
  norm_num

theorem midGo_step_interp (n i s e : ℕ) (d : List ℕ) (hil : i < d.length)
    (h2i : 2 ≤ i) (hs : s = i - 1) (he : e = 0) (hdi : d.getD i 0 ≠ 0) :
    midGo (n + 1) i s e d = midGo n (i + 1) 0 0
      (d.set (i - 1) (toU16 (((d.getD i 0 : ℚ) - (d.getD (i - 1 - 1) 0 : ℚ)) /
        ((i : ℚ) - ((i - 1 : ℕ) : ℚ) + 1) * (((i - 1 : ℕ) : ℚ) - ((i - 1 : ℕ) : ℚ) + 1) +
        (d.getD (i - 1 - 1) 0 : ℚ) + 1 / 2))) := by
  subst hs
  subst he
  have hne : i - 1 ≠ 0 := by omega
  rw [midGo, getE_ok d i hil]
  simp only [if_neg hdi]
  rw [if_pos (show i - 1 ≠ 0 ∧ d.getD i 0 ≠ 0 from ⟨hne, hdi⟩)]
  rw [if_pos (show i - 1 ≠ 0 ∧ i ≠ 0 from ⟨hne, by omega⟩)]
  simp only [getE_ok d i hil, getE_ok d (i - 1 - 1) (by omega)]
  rw [show i - (i - 1) = 1 by omega]
  rw [fillGapGo_one _ _ _ d (by omega)]

theorem midGo_run (size : ℕ) : ∀ (fuel i s e : ℕ) (d : List ℕ),
    i + fuel = size → size ≤ d.length →
    (∀ j, j < d.length → d.getD j 0 < 65536) →
    d.getD 0 0 ≠ 0 →
    (∀ j, j + 1 < size → d.getD j 0 = 0 → d.getD (j + 1) 0 ≠ 0) →
    e = 0 →
    ((s = 0 ∧ ∀ j, j < i → d.getD j 0 ≠ 0) ∨
     (2 ≤ i ∧ s = i - 1 ∧ d.getD (i - 1) 0 = 0 ∧ ∀ j, j < i - 1 → d.getD j 0 ≠ 0)) →
    ∃ d2 s2,
      midGo fuel i s e d = Except.ok (d2, s2, 0) ∧
      d2.length = d.length ∧
      (∀ j, d.getD j 0 ≠ 0 → d2.getD j 0 = d.getD j 0) ∧
      ((s2 = 0 ∧ ∀ j, j < size → d2.getD j 0 ≠ 0) ∨
       (2 ≤ size ∧ s2 = size - 1 ∧ d2.getD (size - 1) 0 = 0 ∧
        ∀ j, j < size - 1 → d2.getD j 0 ≠ 0)) := by
  intro fuel
  induction fuel with
  | zero =>
    intro i s e d hsz hlen hb h0 hadj he hinv
    subst he
    have hi : i = size := by omega
    subst hi
    exact ⟨d, s, rfl, rfl, fun j _ => rfl, hinv⟩
  | succ n ih =>
    intro i s e d hsz hlen hb h0 hadj he hinv
    subst he
    have hi : i < size := by omega
    have hil : i < d.length := by omega
    by_cases hdi : d.getD i 0 = 0
    · -- data[i] == 0 : start moves to i, nothing else this iteration
      rw [midGo_step_zero n i s 0 d hil hdi rfl]
      rcases hinv with ⟨hs, hall⟩ | ⟨hi2, hs, hz, hall⟩
      · have hine : i ≠ 0 := fun h => h0 (h ▸ hdi)
        exact ih (i + 1) i 0 d (by omega) hlen hb h0 hadj rfl
          (Or.inr ⟨by omega, by omega, by rw [Nat.add_sub_cancel]; exact hdi,
            by rw [Nat.add_sub_cancel]; exact hall⟩)
      · exfalso
        have hcontra := hadj (i - 1) (by omega) hz
        rw [show i - 1 + 1 = i by omega] at hcontra
        exact hcontra hdi
    · rcases hinv with ⟨hs, hall⟩ | ⟨hi2, hs, hz, hall⟩
      · -- start flag clear, data[i] != 0 : nothing happens
        rw [midGo_step_nz n i s 0 d hil hdi hs rfl]
        refine ih (i + 1) 0 0 d (by omega) hlen hb h0 hadj rfl (Or.inl ⟨rfl, ?_⟩)
        intro j hj
        rcases (by omega : j < i ∨ j = i) with h | h
        · exact hall j h
        · rw [h]; exact hdi
      · -- pending gap at i - 1, data[i] != 0 : interpolate the single cell i - 1
        rw [midGo_step_interp n i s 0 d hil hi2 hs rfl hdi]
        rw [show i - 1 - 1 = i - 2 by omega]
        have hcast : ((i - 1 : ℕ) : ℚ) = (i : ℚ) - 1 := by
          have h2 : (1 : ℕ) ≤ i := by omega
          rw [Nat.cast_sub h2, Nat.cast_one]
        have hq : ((d.getD i 0 : ℚ) - (d.getD (i - 2) 0 : ℚ)) /
              ((i : ℚ) - ((i - 1 : ℕ) : ℚ) + 1) *
              (((i - 1 : ℕ) : ℚ) - ((i - 1 : ℕ) : ℚ) + 1) +
              (d.getD (i - 2) 0 : ℚ) + 1 / 2 =
            ((d.getD i 0 : ℚ) + (d.getD (i - 2) 0 : ℚ) + 1) / 2 := by
          rw [hcast]
          rw [show (i : ℚ) - ((i : ℚ) - 1) + 1 = 2 by ring]
          rw [show (i : ℚ) - 1 - ((i : ℚ) - 1) + 1 = 1 by ring]
          field_simp
          ring
        rw [hq]
        obtain ⟨hvne, hvlt⟩ := toU16_pos
          (((d.getD i 0 : ℚ) + (d.getD (i - 2) 0 : ℚ) + 1) / 2)
          (by
            have ha : (1 : ℚ) ≤ (d.getD i 0 : ℚ) := by
              exact_mod_cast Nat.one_le_iff_ne_zero.mpr hdi
            have hc : (0 : ℚ) ≤ (d.getD (i - 2) 0 : ℚ) := Nat.cast_nonneg _
            linarith)
          (by
            have ha0 : d.getD i 0 ≤ 65535 := by have := hb i hil; omega
            have hc0 : d.getD (i - 2) 0 ≤ 65535 := by have := hb (i - 2) (by omega : i - 2 < d.length); omega
            have ha : (d.getD i 0 : ℚ) ≤ 65535 := by exact_mod_cast ha0
            have hc : (d.getD (i - 2) 0 : ℚ) ≤ 65535 := by exact_mod_cast hc0
            linarith)
        have hjset : ∀ j, j ≠ i - 1 →
            (d.set (i - 1) (toU16 (((d.getD i 0 : ℚ) + (d.getD (i - 2) 0 : ℚ) + 1) / 2))).getD
              j 0 = d.getD j 0 :=
          fun j hj => getD_set_ne d (i - 1) j _ (fun hh => hj hh.symm)
        have hjtop : (d.set (i - 1)
            (toU16 (((d.getD i 0 : ℚ) + (d.getD (i - 2) 0 : ℚ) + 1) / 2))).getD (i - 1) 0 =
            toU16 (((d.getD i 0 : ℚ) + (d.getD (i - 2) 0 : ℚ) + 1) / 2) :=
          getD_set_self d (i - 1) _ (by omega)
        obtain ⟨d2, s2, hrun, hlen2, hpres, hconc⟩ :=
          ih (i + 1) 0 0 (d.set (i - 1) (toU16 (((d.getD i 0 : ℚ) +
              (d.getD (i - 2) 0 : ℚ) + 1) / 2)))
            (by omega) (by rw [List.length_set]; omega)
            (by
              intro j hj
              rw [List.length_set] at hj
              by_cases hji : j = i - 1
              · rw [hji, hjtop]; exact hvlt
              · rw [hjset j hji]; exact hb j hj)
            (by rw [hjset 0 (by omega)]; exact h0)
            (adj_set d size (i - 1) _ hvne hadj)
            rfl
            (Or.inl ⟨rfl, by
              intro j hj
              by_cases hji : j = i - 1
              · rw [hji, hjtop]; exact hvne
              · rcases (by omega : j < i - 1 ∨ j = i) with h | h
                · rw [hjset j hji]; exact hall j h
                · rw [hjset j hji, h]; exact hdi⟩)
        refine ⟨d2, s2, hrun, by rw [hlen2, List.length_set], ?_, hconc⟩
        intro j hjnz
        have hji : j ≠ i - 1 := fun hh => by rw [hh] at hjnz; exact hjnz hz
        rw [hpres j (by rw [hjset j hji]; exact hjnz), hjset j hji]

/-- C1 (amended): if the leading-zero run ends at index `c ≤ size - 3` (so the
guard passes) and no two adjacent entries of `[c, size)` are both zero, then
`fill_missing_data` succeeds, leaves no zero entry in `[0, size)` and keeps
every originally non-zero entry unchanged. -/
theorem fill_missing_data_repairs (data : List ℕ) (size c : ℕ)
    (hsize : size ≤ data.length)
    (hvals : ∀ j, j < data.length → data.getD j 0 < 65536)
    (hc3 : c + 3 ≤ size)
    (hcnz : data.getD c 0 ≠ 0)
    (hlead : ∀ j, j < c → data.getD j 0 = 0)
    (hadj : ∀ j, j < size → c ≤ j → j + 1 < size →
      data.getD j 0 = 0 → data.getD (j + 1) 0 ≠ 0) :
    ∃ out, fill_missing_data data size = Except.ok out ∧
      out.length = data.length ∧
      (∀ j, j < size → out.getD j 0 ≠ 0) ∧
      (∀ j, data.getD j 0 ≠ 0 → out.getD j 0 = data.getD j 0) := by
  have hcl : c < data.length := by omega
  have hscan : leadScanGo data 0 data.length = Except.ok c :=
    leadScanGo_finds data c hcl hcnz hlead data.length 0 (by omega) (by omega)
  obtain ⟨d1, hfill, hlen1, hin1, hout1⟩ :=
    fillLeadGo_run (data.getD c 0) c 0 data (by omega)
  have hd1c : ∀ j, c ≤ j → d1.getD j 0 = data.getD j 0 :=
    fun j hj => hout1 j (Or.inr (by omega))
  have hd1nz : ∀ j, j ≤ c → d1.getD j 0 ≠ 0 := by
    intro j hj
    rcases Nat.eq_or_lt_of_le hj with heq | hlt
    · rw [heq, hd1c c (by omega)]; exact hcnz
    · rw [hin1 j (by omega) (by omega)]; exact hcnz
  have hd1b : ∀ j, j < d1.length → d1.getD j 0 < 65536 := by
    intro j hj
    rw [hlen1] at hj
    by_cases hjc : j < c
    · rw [hin1 j (by omega) (by omega)]; exact hvals c hcl
    · rw [hd1c j (by omega)]; exact hvals j hj
  have hd1adj : ∀ j, j + 1 < size → d1.getD j 0 = 0 → d1.getD (j + 1) 0 ≠ 0 := by
    intro j hj hz
    by_cases hjc : j ≤ c
    · exact absurd hz (hd1nz j hjc)
    · rw [hd1c j (by omega)] at hz
      rw [hd1c (j + 1) (by omega)]
      exact hadj j (by omega) (by omega) hj hz
  obtain ⟨d2, s2, hrun, hlen2, hpres, hconc⟩ :=
    midGo_run size size 0 0 0 d1 (by omega) (by omega)
      hd1b (hd1nz 0 (by omega)) hd1adj rfl (Or.inl ⟨rfl, fun j hj => absurd hj (by omega)⟩)
  have hpres1 : ∀ j, data.getD j 0 ≠ 0 → d2.getD j 0 = data.getD j 0 := by
    intro j hjnz
    have hjc : c ≤ j := by
      by_contra hlt
      exact hjnz (hlead j (by omega))
    rw [hpres j (by rw [hd1c j hjc]; exact hjnz), hd1c j hjc]
  have hmain : fill_missing_data data size =
      (if s2 ≠ 0 ∧ (0 : ℕ) = 0 then tailFillGo s2 s2 (size - s2) d2 else Except.ok d2) := by
    rw [fill_missing_data]
    simp only [hscan, getE_ok data c hcl, hfill, hrun,
      if_neg (show ¬(c + 1 + 2 > size) by omega)]
  rcases hconc with ⟨hs2, hall⟩ | ⟨hsz2, hs2, hz2, hall⟩
  · refine ⟨d2, ?_, by rw [hlen2, hlen1], hall, hpres1⟩
    rw [hmain, hs2]
    simp
  · -- trailing zero at size - 1 : final fill copies data[size-2]
    have hw : d2.getD (size - 1 - 1) 0 ≠ 0 := by
      rw [show size - 1 - 1 = size - 2 by omega]
      exact hall (size - 2) (by omega)
    have hlen2' : d2.length = data.length := by rw [hlen2, hlen1]
    have htail : tailFillGo s2 s2 (size - s2) d2 =
        Except.ok (d2.set (size - 1) (d2.getD (size - 1 - 1) 0)) := by
      rw [hs2, show size - (size - 1) = 1 by omega]
      exact tailFillGo_one (size - 1) d2 (by omega) (by omega)
    refine ⟨d2.set (size - 1) (d2.getD (size - 1 - 1) 0), ?_, ?_, ?_, ?_⟩
    · rw [hmain, htail, if_pos ⟨by omega, rfl⟩]
    · rw [List.length_set, hlen2']
    · intro j hj
      by_cases hje : j = size - 1
      · rw [hje, getD_set_self d2 (size - 1) _ (by omega)]
        exact hw
      · rw [getD_set_ne d2 (size - 1) j _ (fun hh => hje hh.symm)]
        exact hall j (by omega)
    · intro j hjnz
      have hje : j ≠ size - 1 := by
        intro hh
        rw [hh] at hjnz
        rw [hpres1 (size - 1) hjnz] at hz2
        exact hjnz hz2
      rw [getD_set_ne d2 (size - 1) j _ (fun hh => hje hh.symm)]
      exact hpres1 j hjnz

theorem getD_replicate_zero : ∀ (n j : ℕ), (List.replicate n 0).getD j 0 = 0
  | 0, _ => rfl
  | _ + 1, 0 => rfl
  | n + 1, j + 1 => getD_replicate_zero n j

/-- C1 counterexample: `gapTable` (256 slots, size 4) has non-zero entries,
`fill_missing_data` returns normally, but the zero at index 1 — the first
zero of the interior run `[0, 0]` — is still zero in the output, refuting
"produces a table with no zero entries in [0, size)". -/
theorem fill_missing_data_gap_cex :
    gapTable.getD 0 0 ≠ 0 ∧
    fill_missing_data gapTable 4 = Except.ok gapTableOut ∧
    gapTableOut.getD 1 0 = 0 := by
  have hlen : gapTable.length = 256 := by norm_num [gapTable]
  have h0 : gapTable.getD 0 0 = 5 := rfl
  have h1 : gapTable.getD 1 0 = 0 := rfl
  have h2 : gapTable.getD 2 0 = 0 := rfl
  have h3 : gapTable.getD 3 0 = 9 := rfl
  have hscan : leadScanGo gapTable 0 gapTable.length = Except.ok 0 :=
    leadScanGo_finds gapTable 0 (by rw [hlen]; norm_num) (by rw [h0]; norm_num)
      (fun j hj => absurd hj (by omega)) gapTable.length 0 (by omega) (by rw [hlen]; norm_num)
  have hm0 : midGo 4 0 0 0 gapTable = midGo 3 1 0 0 gapTable :=
    midGo_step_nz 3 0 0 0 gapTable (by rw [hlen]; norm_num) (by rw [h0]; norm_num) rfl rfl
  have hm1 : midGo 3 1 0 0 gapTable = midGo 2 2 1 0 gapTable :=
    midGo_step_zero 2 1 0 0 gapTable (by rw [hlen]; norm_num) h1 rfl
  have hm2 : midGo 2 2 1 0 gapTable = midGo 1 3 2 0 gapTable :=
    midGo_step_zero 1 2 1 0 gapTable (by rw [hlen]; norm_num) h2 rfl
  have hm3 : midGo 1 3 2 0 gapTable = midGo 0 4 0 0
      (gapTable.set (3 - 1) (toU16 (((gapTable.getD 3 0 : ℚ) -
        (gapTable.getD (3 - 1 - 1) 0 : ℚ)) /
        ((3 : ℚ) - ((3 - 1 : ℕ) : ℚ) + 1) * (((3 - 1 : ℕ) : ℚ) - ((3 - 1 : ℕ) : ℚ) + 1) +
        (gapTable.getD (3 - 1 - 1) 0 : ℚ) + 1 / 2))) :=
    midGo_step_interp 0 3 2 0 gapTable (by rw [hlen]; norm_num) (by norm_num)
      (by norm_num) rfl (by rw [h3]; norm_num)
  have hval : toU16 (((gapTable.getD 3 0 : ℚ) - (gapTable.getD (3 - 1 - 1) 0 : ℚ)) /
      ((3 : ℚ) - ((3 - 1 : ℕ) : ℚ) + 1) * (((3 - 1 : ℕ) : ℚ) - ((3 - 1 : ℕ) : ℚ) + 1) +
      (gapTable.getD (3 - 1 - 1) 0 : ℚ) + 1 / 2) = 5 := by
    rw [h3, show (3 : ℕ) - 1 - 1 = 1 by norm_num, h1]
    norm_num [toU16]
    decide
  have hset : gapTable.set (3 - 1) 5 = gapTableOut := by
    norm_num [gapTable, gapTableOut, List.set]
  have hfill0 : fillLeadGo (gapTable.getD 0 0) 0 0 gapTable = Except.ok gapTable := rfl
  refine ⟨by rw [h0]; norm_num, ?_, rfl⟩
  rw [fill_missing_data]
  simp only [hscan, if_neg (show ¬(0 + 1 + 2 > 4) by norm_num),
    getE_ok gapTable 0 (by rw [hlen]; norm_num), hfill0, hm0, hm1, hm2, hm3, hval, hset]
  have hbase : midGo 0 4 0 0 gapTableOut = Except.ok (gapTableOut, 0, 0) := rfl
  simp only [hbase]
  rw [if_neg (by decide)]

/-- C2: on an all-zero 256-slot table the leading-zero scan
`while (data[start++] == 0)` walks past the end of the array and performs the
(bounds-checked model of the) out-of-bounds read `data[256]` instead of
throwing the "not enough valid data" error. -/
theorem fill_missing_data_all_zero_oob :
    fill_missing_data (List.replicate 256 0) 256 = Except.error FillErr.oob := by
  rw [fill_missing_data, leadScanGo_all_zero (List.replicate 256 0)
    (fun j _ => getD_replicate_zero 256 j) _ 0]

/-- C1 witness: a concrete table with a leading zero, an isolated interior
zero and an isolated trailing zero is fully repaired. -/
theorem fill_missing_data_repairs_witness :
    ∃ out, fill_missing_data [0, 4, 0, 6, 8, 0] 6 = Except.ok out ∧
      out.length = ([0, 4, 0, 6, 8, 0] : List ℕ).length ∧
      (∀ j, j < 6 → out.getD j 0 ≠ 0) ∧
      (∀ j, ([0, 4, 0, 6, 8, 0] : List ℕ).getD j 0 ≠ 0 →
        out.getD j 0 = ([0, 4, 0, 6, 8, 0] : List ℕ).getD j 0) :=
  fill_missing_data_repairs [0, 4, 0, 6, 8, 0] 6 1 (by norm_num) (by decide) (by norm_num)
    (by decide) (by decide) (by decide)

/-! ### Bit-decoding lemmas and the C9 theorem -/

theorem and_shiftRight (a b n : ℕ) : (a &&& b) >>> n = (a >>> n) &&& (b >>> n) := by
  apply Nat.eq_of_testBit_eq
  intro i
  simp [Nat.testBit_shiftRight, Nat.testBit_and]

theorem and_one_ne (n : ℕ) : (n &&& 1 ≠ 0) ↔ n.testBit 0 = true := by
  rw [Nat.and_one_is_mod, Nat.testBit_to_div_mod]
  simp


theorem and_two_ne (n : ℕ) : (n &&& 2 ≠ 0) ↔ n.testBit 1 = true := by
  rw [show (2 : ℕ) = 2 ^ 1 from rfl, Nat.and_two_pow]
  cases htb : n.testBit 1 <;> simp [htb]

theorem sign_bit_24 (h : ℕ) : ((h &&& 0x0F000000) >>> 24).testBit 0 = h.testBit 24 := by
  rw [Nat.testBit_shiftRight, Nat.testBit_and]
  have hm : Nat.testBit 0x0F000000 24 = true := by decide
  simp [hm]

theorem sign_bit_25 (h : ℕ) : ((h &&& 0x0F000000) >>> 24).testBit 1 = h.testBit 25 := by
  rw [Nat.testBit_shiftRight, Nat.testBit_and]
  have hm : Nat.testBit 0x0F000000 25 = true := by decide
  simp [hm]

/-- C9: for the ON_CHIP_OB_CALIB action, the packed firmware return code `h`
decodes to `health_1 = (h & 0xFFF) / 1000`, negated when bit 24 of `h` is
set, and `health_2 = ((h >> 12) & 0xFFF) / 1000`, negated when bit 25 of `h`
is set. -/
theorem decode_ob_health_spec (h : ℕ) :
    decode_ob_health h =
      ((if h.testBit 24 then -(((h &&& 0xFFF : ℕ) : ℚ) / 1000)
        else ((h &&& 0xFFF : ℕ) : ℚ) / 1000),
       (if h.testBit 25 then -((((h >>> 12) &&& 0xFFF : ℕ) : ℚ) / 1000)
        else (((h >>> 12) &&& 0xFFF : ℕ) : ℚ) / 1000)) := by
  have hmask : (h &&& 0xFFF000) >>> 12 = (h >>> 12) &&& 0xFFF := by
    rw [and_shiftRight, show (0xFFF000 : ℕ) >>> 12 = 0xFFF from by decide]
  have hc1 : (((h &&& 0x0F000000) >>> 24) &&& 1 ≠ 0) ↔ h.testBit 24 = true := by
    rw [and_one_ne, sign_bit_24]
  have hc2 : (((h &&& 0x0F000000) >>> 24) &&& 2 ≠ 0) ↔ h.testBit 25 = true := by
    rw [and_two_ne, sign_bit_25]
  rw [decode_ob_health]
  simp only [hmask, hc1, hc2]

/-! ### C10 theorem -/

/-- C10: `apply_calib(use_new)` calls `set_calibration_table` (result
`some table`) exactly when the selected table is non-empty; an empty selected
table makes the call a no-op (`none`). -/
theorem apply_calib_empty_guard (new_calib old_calib : List ℕ) (use_new : Bool) :
    ((if use_new then new_calib else old_calib) = [] →
      apply_calib new_calib old_calib use_new = none) ∧
    ((if use_new then new_calib else old_calib) ≠ [] →
      apply_calib new_calib old_calib use_new =
        some (if use_new then new_calib else old_calib)) := by
  constructor
  · intro hempty
    simp [apply_calib, hempty]
  · intro hne
    simp [apply_calib, hne]

/-- C10 witness: with an empty new table no call is made; with a non-empty
one the selected table is sent. -/
theorem apply_calib_empty_guard_witness :
    apply_calib [7] [] false = none ∧ apply_calib [3] [9] true = some [3] :=
  ⟨(apply_calib_empty_guard [7] [] false).1 rfl,
   (apply_calib_empty_guard [3] [9] true).2 (by decide)⟩

/-! ### C6 theorem -/

/-- C6: patching the calibration table with ratio 1.0 (`corrected_ratio = 0`)
leaves both right-intrinsic scale fields equal to the input, leaves the body
and the total size unchanged, and writes into the header a checksum equal to
the CRC32 of the unmodified body; the stored checksum is recomputed and never
read from the input (the result is the same for every input crc32 value). -/
theorem calibrate_fl_patch_ratio_one (crc : List ℕ → ℕ) (enc : ℚ → List ℕ)
    (t : CoefficientsTable) :
    (calibrate_fl_patch crc enc t 0).intrinsic_right_xx = t.intrinsic_right_xx ∧
    (calibrate_fl_patch crc enc t 0).intrinsic_right_xy = t.intrinsic_right_xy ∧
    tableBody enc (calibrate_fl_patch crc enc t 0) = tableBody enc t ∧
    tableSize enc (calibrate_fl_patch crc enc t 0) = tableSize enc t ∧
    (calibrate_fl_patch crc enc t 0).crc32 = crc (tableBody enc t) ∧
    (∀ c0 : ℕ, (calibrate_fl_patch crc enc { t with crc32 := c0 } 0).crc32 =
      (calibrate_fl_patch crc enc t 0).crc32) := by
  have hx : t.intrinsic_right_xx * ((0 : ℚ) / 100 + 1) = t.intrinsic_right_xx := by ring
  have hy : t.intrinsic_right_xy * ((0 : ℚ) / 100 + 1) = t.intrinsic_right_xy := by ring
  refine ⟨?_, ?_, ?_, ?_, ?_, ?_⟩ <;>
    simp [calibrate_fl_patch, tableBody, tableSize, hx, hy]

/-! ### C4 and C5 theorems -/

/-- C4: `uvmapping_calib::calibrate` returns true if and only if each of the
four final parameter values ppx, ppy, fx, fy differs from the corresponding
current color intrinsic by strictly less than `_max_change`; the computed
errBefore/errAfter play no role in acceptance (the returned bit is unchanged
under any substitute for `sqrtf`, the only place the errors are formed). -/
theorem uvmapping_calibrate_accept_iff (sq sq2 : ℚ → ℚ) (g : UvGeom)
    (c : UvmappingCalib) (ppx0 ppy0 fx0 fy0 : ℚ) :
    ((uvmapping_calibrate sq g c ppx0 ppy0 fx0 fy0).ret = true ↔
      (|c.color_intrin.ppx - (uvmapping_calibrate sq g c ppx0 ppy0 fx0 fy0).ppx| <
          c.max_change ∧
       |c.color_intrin.ppy - (uvmapping_calibrate sq g c ppx0 ppy0 fx0 fy0).ppy| <
          c.max_change ∧
       |c.color_intrin.fx - (uvmapping_calibrate sq g c ppx0 ppy0 fx0 fy0).fx| <
          c.max_change ∧
       |c.color_intrin.fy - (uvmapping_calibrate sq g c ppx0 ppy0 fx0 fy0).fy| <
          c.max_change)) ∧
    (uvmapping_calibrate sq2 g c ppx0 ppy0 fx0 fy0).ret =
      (uvmapping_calibrate sq g c ppx0 ppy0 fx0 fy0).ret := by
  constructor
  · simp [uvmapping_calibrate, Bool.and_eq_true, decide_eq_true_eq, and_assoc]
  · rfl

/-- C5: per axis independently, when the normalisation denominator
`4·Σx² − (Σx)²` is ≤ 0.01 the axis solve is skipped and that axis's scale and
offset keep their caller-supplied values; when it is > 0.01 the closed-form
solution is taken; and the after-error is always computed from the resulting
(possibly mixed) parameters. -/
theorem uvmapping_calibrate_degenerate_axis (sq : ℚ → ℚ) (g : UvGeom)
    (c : UvmappingCalib) (ppx0 ppy0 fx0 fy0 : ℚ) (r : UvResult)
    (hr : r = uvmapping_calibrate sq g c ppx0 ppy0 fx0 fy0) :
    (uv_dx g c ≤ 1 / 100 → r.fx = fx0 ∧ r.ppx = ppx0) ∧
    (uv_dy g c ≤ 1 / 100 → r.fy = fy0 ∧ r.ppy = ppy0) ∧
    (uv_dx g c > 1 / 100 →
      r.fx = (1 / uv_dx g c) * (4 * uv_cxc g c - uv_x g c * uv_cx c) ∧
      r.ppx = (1 / uv_dx g c) * (uv_x2 g c * uv_cx c - uv_x g c * uv_cxc g c)) ∧
    (uv_dy g c > 1 / 100 →
      r.fy = (1 / uv_dy g c) * (4 * uv_cyc g c - uv_y g c * uv_cy c) ∧
      r.ppy = (1 / uv_dy g c) * (uv_y2 g c * uv_cy c - uv_y g c * uv_cyc g c)) ∧
    r.err_after = sum4 (fun i =>
      sq (((uv_norm g c i).1 * r.fx + r.ppx - c.color_x i) *
            ((uv_norm g c i).1 * r.fx + r.ppx - c.color_x i) +
          ((uv_norm g c i).2 * r.fy + r.ppy - c.color_y i) *
            ((uv_norm g c i).2 * r.fy + r.ppy - c.color_y i))) / 4 := by
  subst hr
  refine ⟨?_, ?_, ?_, ?_, ?_⟩
  · intro hle
    have hdx : ¬ (uv_dx g c > 1 / 100) := by linarith
    constructor <;> (simp only [uvmapping_calibrate]; rw [if_neg hdx])
  · intro hle
    have hdy : ¬ (uv_dy g c > 1 / 100) := by linarith
    constructor <;> (simp only [uvmapping_calibrate]; rw [if_neg hdy])
  · intro hgt
    constructor <;> (simp only [uvmapping_calibrate]; rw [if_pos hgt])
  · intro hgt
    constructor <;> (simp only [uvmapping_calibrate]; rw [if_pos hgt])
  · rfl

/-- C5 witness: at `uvCalibW` the x axis is degenerate (`d_x = 0 ≤ 0.01`),
so the fitted fx/ppx keep the caller-supplied values 30 and 10. -/
theorem uvmapping_calibrate_degenerate_axis_witness :
    uv_dx uvGeomW uvCalibW ≤ 1 / 100 ∧
    (uvmapping_calibrate id uvGeomW uvCalibW 10 20 30 40).fx = 30 ∧
    (uvmapping_calibrate id uvGeomW uvCalibW 10 20 30 40).ppx = 10 := by
  have hdx : uv_dx uvGeomW uvCalibW ≤ 1 / 100 := by
    norm_num [uv_dx, uv_x2, uv_x, uv_norm, sum4, uvGeomW, uvCalibW]
  have h := uvmapping_calibrate_degenerate_axis id uvGeomW uvCalibW 10 20 30 40
    (uvmapping_calibrate id uvGeomW uvCalibW 10 20 30 40) rfl
  exact ⟨hdx, (h.1 hdx).1, (h.1 hdx).2⟩

/-! ### C3 lemmas and theorem -/

theorem restore_workspace_restored (env : ViewerEnv) (s : WorkspaceState) :
    (restore_workspace env s).restored = true := by
  by_cases hr : s.restored = true
  · simp [restore_workspace, hr]
  · simp [restore_workspace, hr]

theorem restore_workspace_of_restored (env : ViewerEnv) (s : WorkspaceState)
    (h : s.restored = true) : restore_workspace env s = s := by
  simp [restore_workspace, h]

theorem restore_workspace_fields (env : ViewerEnv) (s : WorkspaceState)
    (hr : s.restored = false) :
    (restore_workspace env s).is3dView = s.in3d ∧
    (restore_workspace env s).syncEnable = s.synchronized ∧
    (restore_workspace env s).postProcessing = s.postProcSaved := by
  by_cases h1 : env.stop_effect = true <;>
  by_cases h2 : env.start_effect = true <;>
  rcases h3 : s.savedUi with _ | u <;>
  by_cases h4 : s.uvMapping = true <;>
  rcases h5 : s.savedUiColor with _ | uc <;>
  by_cases h6 : s.wasStreaming = true <;>
  by_cases h7 : s.supportsEmitter = true <;>
  by_cases h8 : s.supportsThermal = true <;>
  simp [restore_workspace, stop_viewer, start_viewer, start_viewer_save,
    hr, h1, h2, h3, h4, h5, h6, h7, h8]

theorem start_viewer_save_spec (s : WorkspaceState) :
    (s.supportsEmitter = true →
      (start_viewer_save s).laser_status_prev = s.emitter ∧
      (start_viewer_save s).emitter = 0) ∧
    (s.supportsThermal = true →
      (start_viewer_save s).thermal_loop_prev = s.thermal ∧
      (start_viewer_save s).thermal = 0) := by
  constructor
  · intro he
    by_cases ht : s.supportsThermal = true <;> simp [start_viewer_save, he, ht]
  · intro ht
    by_cases he : s.supportsEmitter = true <;> simp [start_viewer_save, he, ht]

/-- C3: the state saved before the stream override is restored exactly once —
after any `restore_workspace` call the `_restored` flag is set and a second
call (under any viewer-failure environment) returns the state unchanged; a
call on an already-restored state changes nothing; a first call on an
unrestored state puts the saved viewer flags back; and `start_viewer`
records the pre-override emitter/thermal values before zeroing them.
`restore_workspace` is total in the model — its body and every viewer call it
makes sit inside `try/catch(...)`, so an exception during restoration is
swallowed and cannot replace the session's primary error. -/
theorem restore_workspace_exactly_once (env1 env2 : ViewerEnv) (s : WorkspaceState) :
    (restore_workspace env1 s).restored = true ∧
    restore_workspace env2 (restore_workspace env1 s) = restore_workspace env1 s ∧
    (s.restored = true → restore_workspace env1 s = s) ∧
    (s.restored = false →
      (restore_workspace env1 s).is3dView = s.in3d ∧
      (restore_workspace env1 s).syncEnable = s.synchronized ∧
      (restore_workspace env1 s).postProcessing = s.postProcSaved) ∧
    (s.supportsEmitter = true →
      (start_viewer_save s).laser_status_prev = s.emitter ∧
      (start_viewer_save s).emitter = 0) ∧
    (s.supportsThermal = true →
      (start_viewer_save s).thermal_loop_prev = s.thermal ∧
      (start_viewer_save s).thermal = 0) :=
  ⟨restore_workspace_restored env1 s,
   restore_workspace_of_restored env2 _ (restore_workspace_restored env1 s),
   fun h => restore_workspace_of_restored env1 s h,
   fun h => restore_workspace_fields env1 s h,
   (start_viewer_save_spec s).1, (start_viewer_save_spec s).2⟩

/-- C3 witness at a concrete unrestored streaming session state. -/
theorem restore_workspace_exactly_once_witness :
    (restore_workspace ⟨true, true⟩ wsW).restored = true ∧
    restore_workspace ⟨false, false⟩ (restore_workspace ⟨true, true⟩ wsW) =
      restore_workspace ⟨true, true⟩ wsW ∧
    wsW.restored = false ∧
    (restore_workspace ⟨true, true⟩ wsW).is3dView = wsW.in3d ∧
    wsW.supportsEmitter = true ∧
    (start_viewer_save wsW).laser_status_prev = wsW.emitter := by
  have h := restore_workspace_exactly_once ⟨true, true⟩ ⟨false, false⟩ wsW
  exact ⟨h.1, h.2.1, rfl, (h.2.2.2.1 rfl).1, rfl, (h.2.2.2.2.1 rfl).1⟩

/-! ### C8 lemmas and theorem -/

theorem sweepFpsGo_spec (supAt : ℕ → Bool) : ∀ (l : List ℕ) (i cur : ℕ),
    (∃ k, i ≤ k ∧ k < i + l.length ∧ supAt k = true ∧
      (∀ j, i ≤ j → j < k → supAt j = false) ∧ sweepFpsGo supAt l i cur = k) ∨
    ((∀ j, i ≤ j → j < i + l.length → supAt j = false) ∧
      sweepFpsGo supAt l i cur = if l.length = 0 then cur else i + l.length - 1) := by
  intro l
  induction l with
  | nil =>
    intro i cur
    refine Or.inr ⟨?_, by simp [sweepFpsGo]⟩
    intro j h1 h2
    rw [List.length_nil, Nat.add_zero] at h2
    exact absurd h2 (Nat.not_lt.mpr h1)
  | cons v rest ih =>
    intro i cur
    by_cases hs : supAt i = true
    · refine Or.inl ⟨i, le_refl i, by simp, hs, ?_, by simp [sweepFpsGo, hs]⟩
      intro j h1 h2
      exact absurd h2 (Nat.not_lt.mpr h1)
    · have hs0 : supAt i = false := by simpa using hs
      have hstep : sweepFpsGo supAt (v :: rest) i cur = sweepFpsGo supAt rest (i + 1) i := by
        simp [sweepFpsGo, hs0]
      rcases ih (i + 1) i with ⟨k, hk1, hk2, hk3, hk4, hk5⟩ | ⟨hall, hres⟩
      · refine Or.inl ⟨k, by omega, by simp; omega, hk3, ?_, by rw [hstep]; exact hk5⟩
        intro j h1 h2
        rcases Nat.eq_or_lt_of_le h1 with heq | hlt
        · rw [← heq]; exact hs0
        · exact hk4 j hlt h2
      · refine Or.inr ⟨?_, ?_⟩
        · intro j h1 h2
          rcases Nat.eq_or_lt_of_le h1 with heq | hlt
          · rw [← heq]; exact hs0
          · refine hall j hlt ?_
            rw [List.length_cons] at h2
            omega
        · rw [hstep, hres, List.length_cons]
          rcases Nat.eq_zero_or_pos rest.length with h0 | hpos
          · simp [h0]
          · rw [if_neg (by omega), if_neg (by omega)]
            omega

theorem selectLastIdx_spec {α : Type} (p : α → Bool) (dflt : α) : ∀ (l : List α) (i acc : ℕ),
    (∃ j, j < l.length ∧ p (l.getD j dflt) = true ∧ selectLastIdx p l i acc = i + j) ∨
    ((∀ j, j < l.length → p (l.getD j dflt) = false) ∧ selectLastIdx p l i acc = acc) := by
  intro l
  induction l with
  | nil =>
    intro i acc
    exact Or.inr ⟨fun j hj => absurd hj (by simp), rfl⟩
  | cons v rest ih =>
    intro i acc
    have hstep : selectLastIdx p (v :: rest) i acc =
        selectLastIdx p rest (i + 1) (if p v then i else acc) := rfl
    rcases ih (i + 1) (if p v then i else acc) with ⟨j, hj1, hj2, hj3⟩ | ⟨hall, hres⟩
    · refine Or.inl ⟨j + 1, by simpa using hj1, by simpa using hj2, ?_⟩
      rw [hstep, hj3]
      omega
    · by_cases hv : p v = true
      · refine Or.inl ⟨0, by simp, by simpa using hv, ?_⟩
        rw [hstep, hres, if_pos hv, Nat.add_zero]
      · have hv0 : p v = false := by simpa using hv
        refine Or.inr ⟨?_, ?_⟩
        · intro j hj
          cases j with
          | zero => simpa using hv0
          | succ m =>
            refine hall m ?_
            rw [List.length_cons] at hj
            omega
        · rw [hstep, hres, if_neg (by simp [hv0])]

/-- C8: when the selected (resolution, fps) combination is unsupported, the
fallback first sweeps the FPS ids with the resolution held fixed and keeps
the first supported one; if no FPS at that resolution is supported, it
selects the (last) 640x480 entry of the resolution list. -/
theorem negotiate_streams_fallback (sup : ℕ × ℕ → ℕ → Bool) (st : StreamUI)
    (hun : combination_supported sup st = false) :
    (∃ k, k < st.fps_values.length ∧
       sup (st.res_values.getD st.selected_res_id (0, 0)) (st.fps_values.getD k 0) = true ∧
       (∀ j, j < k →
         sup (st.res_values.getD st.selected_res_id (0, 0))
           (st.fps_values.getD j 0) = false) ∧
       negotiate_streams sup st = { st with selected_fps_id := k }) ∨
    ((∀ j, j < st.fps_values.length →
        sup (st.res_values.getD st.selected_res_id (0, 0))
          (st.fps_values.getD j 0) = false) ∧
     (negotiate_streams sup st).res_values = st.res_values ∧
     (negotiate_streams sup st).fps_values = st.fps_values ∧
     (negotiate_streams sup st).selected_res_id =
       selectLastIdx vgaP st.res_values 0 st.selected_res_id ∧
     ((∃ j, j < st.res_values.length ∧ st.res_values.getD j (0, 0) = (640, 480)) →
       (negotiate_streams sup st).res_values.getD
         (negotiate_streams sup st).selected_res_id (0, 0) = (640, 480))) := by
  have hneg : ¬ combination_supported sup st = true := by simp [hun]
  rcases sweepFpsGo_spec
      (fun i => sup (st.res_values.getD st.selected_res_id (0, 0)) (st.fps_values.getD i 0))
      st.fps_values 0 st.selected_fps_id with ⟨k, _, hk2, hk3, hk4, hk5⟩ | ⟨hall, hres⟩
  · -- some FPS at the fixed resolution is supported: first supported id wins
    left
    have hswp : fpsSweep sup st = k := hk5
    have hcomb : combination_supported sup { st with selected_fps_id := k } = true := by
      rw [combination_supported]
      exact hk3
    refine ⟨k, by simpa using hk2, hk3, fun j hj => hk4 j (Nat.zero_le j) hj, ?_⟩
    rw [negotiate_streams, if_pos hneg]
    simp only [hswp]
    rw [if_neg (fun hcon => hcon hcomb)]
  · -- no FPS at the fixed resolution works: fall back to 640x480
    right
    have hall0 : ∀ j, j < st.fps_values.length →
        sup (st.res_values.getD st.selected_res_id (0, 0)) (st.fps_values.getD j 0) = false :=
      fun j hj => hall j (Nat.zero_le j) (by simpa using hj)
    have hst1 : combination_supported sup { st with selected_fps_id := fpsSweep sup st } =
        false := by
      rcases Nat.eq_zero_or_pos st.fps_values.length with h0 | hpos
      · rw [fpsSweep, hres, if_pos h0]
        exact hun
      · rw [fpsSweep, hres, if_neg (by omega)]
        rw [combination_supported]
        exact hall0 (0 + st.fps_values.length - 1) (by omega)
    have hcond : ¬ combination_supported sup { st with selected_fps_id := fpsSweep sup st } =
        true := by simp [hst1]
    have hrun : negotiate_streams sup st =
        { st with selected_fps_id := fpsSweep sup st,
                  selected_res_id := selectLastIdx vgaP st.res_values 0 st.selected_res_id } := by
      rw [negotiate_streams, if_pos hneg]
      simp only []
      rw [if_pos hcond]
    refine ⟨hall0, by rw [hrun], by rw [hrun], by rw [hrun], ?_⟩
    intro hex
    rcases hex with ⟨j, hj1, hj2⟩
    rw [hrun]
    rcases selectLastIdx_spec vgaP ((0, 0) : ℕ × ℕ)
        st.res_values 0 st.selected_res_id with ⟨m, hm1, hm2, hm3⟩ | ⟨hnone, _⟩
    · have hval : st.res_values.getD m (0, 0) = (640, 480) := by
        rcases hq : st.res_values.getD m (0, 0) with ⟨a, b⟩
        rw [hq] at hm2
        rw [vgaP] at hm2
        simp at hm2
        rw [hm2.1, hm2.2]
      rw [hm3]
      simpa using hval
    · exfalso
      have hcontra := hnone j hj1
      rw [hj2, vgaP] at hcontra
      simp at hcontra

theorem negotiate_streams_fallback_witness :
    combination_supported supW streamUIW = false ∧
    ((∃ k, k < streamUIW.fps_values.length ∧
       supW (streamUIW.res_values.getD streamUIW.selected_res_id (0, 0))
         (streamUIW.fps_values.getD k 0) = true ∧
       (∀ j, j < k →
         supW (streamUIW.res_values.getD streamUIW.selected_res_id (0, 0))
           (streamUIW.fps_values.getD j 0) = false) ∧
       negotiate_streams supW streamUIW = { streamUIW with selected_fps_id := k }) ∨
    ((∀ j, j < streamUIW.fps_values.length →
        supW (streamUIW.res_values.getD streamUIW.selected_res_id (0, 0))
          (streamUIW.fps_values.getD j 0) = false) ∧
     (negotiate_streams supW streamUIW).res_values = streamUIW.res_values ∧
     (negotiate_streams supW streamUIW).fps_values = streamUIW.fps_values ∧
     (negotiate_streams supW streamUIW).selected_res_id =
       selectLastIdx vgaP streamUIW.res_values 0 streamUIW.selected_res_id ∧
     ((∃ j, j < streamUIW.res_values.length ∧
         streamUIW.res_values.getD j (0, 0) = (640, 480)) →
       (negotiate_streams supW streamUIW).res_values.getD
         (negotiate_streams supW streamUIW).selected_res_id (0, 0) = (640, 480)))) :=
  ⟨by decide, negotiate_streams_fallback supW streamUIW (by decide)⟩

/-! ### C7 lemmas: sorting, medians and the bundle loop -/

theorem getD_replicate_lt : ∀ (n i : ℕ) (a d : ℚ), i < n → (List.replicate n a).getD i d = a
  | 0, _, _, _, h => absurd h (by omega)
  | _ + 1, 0, _, _, _ => rfl
  | n + 1, i + 1, a, d, h => by
    rw [List.replicate_succ]
    exact getD_replicate_lt n i a d (by omega)

theorem insertQ_rep_self : ∀ (n : ℕ) (a : ℚ), insertQ a (List.replicate n a) = List.replicate (n + 1) a
  | 0, _ => rfl
  | n + 1, a => by simp [List.replicate_succ, insertQ]

theorem sortQ_replicate : ∀ (n : ℕ) (a : ℚ), sortQ (List.replicate n a) = List.replicate n a
  | 0, _ => rfl
  | n + 1, a => by
    rw [List.replicate_succ, sortQ, sortQ_replicate n a, insertQ_rep_self n a,
      List.replicate_succ]

theorem insertQ_skip (a b : ℚ) (hab : ¬ a ≤ b) :
    ∀ (n : ℕ) (t : List ℚ), insertQ a (List.replicate n b ++ t) = List.replicate n b ++ insertQ a t
  | 0, _ => rfl
  | n + 1, t => by
    rw [List.replicate_succ, List.cons_append, insertQ, if_neg hab, insertQ_skip a b hab n t,
      List.cons_append]

theorem sortQ_two_blocks (a b : ℚ) (hab : ¬ a ≤ b) :
    ∀ (m n : ℕ), sortQ (List.replicate m a ++ List.replicate n b) =
      List.replicate n b ++ List.replicate m a
  | 0, n => by simp [sortQ_replicate]
  | m + 1, n => by
    rw [List.replicate_succ, List.cons_append, sortQ, sortQ_two_blocks a b hab m n,
      insertQ_skip a b hab, insertQ_rep_self, List.replicate_succ]

theorem medianQ_replicate (n : ℕ) (a : ℚ) (hn : n ≠ 0) : medianQ (List.replicate n a) = a := by
  rw [medianQ, sortQ_replicate, List.length_replicate, if_neg hn]
  exact getD_replicate_lt n (n / 2) a 0 (Nat.div_lt_self (Nat.pos_of_ne_zero hn) one_lt_two)

theorem getD_rep31_append (b a : ℚ) :
    (List.replicate 31 b ++ List.replicate 31 a).getD 31 0 = a := rfl

theorem medianQ_two_blocks (a b : ℚ) (hab : ¬ a ≤ b) :
    medianQ (List.replicate 31 a ++ List.replicate 31 b) = a := by
  rw [medianQ, sortQ_two_blocks a b hab 31 31]
  simp only [List.length_append, List.length_replicate]
  rw [if_neg (by norm_num)]
  rw [show ((31 + 31) / 2 : ℕ) = 31 by norm_num]
  exact getD_rep31_append b a

theorem bundleFills_const (frames : ℕ → FrameSample) (start : ℕ) (fl : ℚ)
    (h : ∀ k, k < 31 → (frames (start + k)).fill = fl) :
    bundleFills frames start = List.replicate 31 fl := by
  rw [bundleFills, List.map_map]
  refine List.eq_replicate_iff.2 ⟨by simp, ?_⟩
  intro b hb
  simp only [List.mem_map, List.mem_range, Function.comp] at hb
  obtain ⟨k, hk, hbk⟩ := hb
  rw [← hbk]
  exact h k hk

theorem bundleRms_const (frames : ℕ → FrameSample) (start : ℕ) (r : ℚ)
    (hfit : ∀ k, k < 31 → (frames (start + k)).plane_fit = true)
    (hr : ∀ k, k < 31 → (frames (start + k)).rms = r) :
    bundleRms frames start = List.replicate 31 r := by
  rw [bundleRms]
  have hfil : ((List.range 31).map (fun k => frames (start + k))).filter
      (fun fr => fr.plane_fit) = (List.range 31).map (fun k => frames (start + k)) := by
    rw [List.filter_eq_self]
    intro fr hfr
    simp only [List.mem_map, List.mem_range] at hfr
    obtain ⟨k, hk, hbk⟩ := hfr
    rw [← hbk]
    exact hfit k hk
  rw [hfil, List.map_map]
  refine List.eq_replicate_iff.2 ⟨by simp, ?_⟩
  intro b hb
  simp only [List.mem_map, List.mem_range, Function.comp] at hb
  obtain ⟨k, hk, hbk⟩ := hb
  rw [← hbk]
  exact hr k hk

theorem bundleNewSq_const (frames : ℕ → FrameSample) (start : ℕ) (r : ℚ)
    (hfit : ∀ k, k < 31 → (frames (start + k)).plane_fit = true)
    (hr : ∀ k, k < 31 → (frames (start + k)).rms = r) :
    bundleNewSq frames start = r * r := by
  rw [bundleNewSq, bundleRms_const frames start r hfit hr]
  simp only [List.map_replicate, List.sum_replicate, List.length_replicate, nsmul_eq_mul]
  rw [mul_comm, mul_div_assoc]
  norm_num

theorem gdmGo_step_continue (frames : ℕ → FrameSample) (fuel : ℕ) (fills : List ℚ)
    (idx : ℕ) (prevSq : ℚ) (count : ℕ)
    (h : bundleNewSq frames idx < prevSq * (16 / 25) ∧ bundleNewSq frames idx > 100 ∧
      count < 10) :
    gdmGo frames (fuel + 1) fills idx prevSq count =
      gdmGo frames fuel (fills ++ bundleFills frames idx) (idx + 31)
        (bundleNewSq frames idx) (count + 1) := by
  rw [gdmGo, if_pos h]

theorem gdmGo_step_stop (frames : ℕ → FrameSample) (fuel : ℕ) (fills : List ℚ)
    (idx : ℕ) (prevSq : ℚ) (count : ℕ)
    (h : ¬ (bundleNewSq frames idx < prevSq * (16 / 25) ∧ bundleNewSq frames idx > 100 ∧
      count < 10)) :
    gdmGo frames (fuel + 1) fills idx prevSq count =
      (fills ++ bundleFills frames idx, bundleRms frames idx) := by
  rw [gdmGo, if_neg h]

theorem fillsFromTo_one (frames : ℕ → FrameSample) (c : ℕ) :
    fillsFromTo frames c 1 = bundleFills frames (31 * c) := by
  rw [show (1 : ℕ) = 0 + 1 from rfl, fillsFromTo, fillsFromTo, List.append_nil]

/-- One full run of the bundle loop: starting at bundle `c` with the correct
carried `rms_std²`, the loop stops at the first bundle `k ≥ c` that fails the
continue condition, having accumulated the fill rates of bundles `[c, k]` and
holding exactly the RMS list of the final bundle `k`. -/
theorem gdmGo_run (frames : ℕ → FrameSample) :
    ∀ f c fills, c + f = 11 → c ≤ 10 →
      ∃ k, c ≤ k ∧ k ≤ 10 ∧
        (∀ j, c ≤ j → j < k → gdmContinue frames j) ∧
        ¬ gdmContinue frames k ∧
        gdmGo frames f fills (31 * c) (gdmPrevSq frames c) c =
          (fills ++ fillsFromTo frames c (k + 1 - c), bundleRms frames (31 * k))
  | 0, c, fills, hf, hc => absurd hf (by omega)
  | f + 1, c, fills, hf, hc => by
    by_cases hcont : gdmContinue frames c
    · have hcont' := hcont
      simp only [gdmContinue, gdmNewSq] at hcont'
      have hc10 : c < 10 := hcont'.2.2
      have hstep := gdmGo_step_continue frames f fills (31 * c) (gdmPrevSq frames c) c hcont'
      have h31 : 31 * c + 31 = 31 * (c + 1) := by ring
      have hprev : bundleNewSq frames (31 * c) = gdmPrevSq frames (c + 1) := rfl
      obtain ⟨k, hk1, hk2, hk3, hk4, hk5⟩ :=
        gdmGo_run frames f (c + 1) (fills ++ bundleFills frames (31 * c)) (by omega) (by omega)
      refine ⟨k, by omega, hk2, ?_, hk4, ?_⟩
      · intro j hj1 hj2
        rcases Nat.eq_or_lt_of_le hj1 with heq | hlt
        · exact heq ▸ hcont
        · exact hk3 j hlt hj2
      · rw [hstep, h31, hprev, hk5]
        have hkk : k + 1 - c = (k + 1 - (c + 1)) + 1 := by omega
        rw [hkk, fillsFromTo, List.append_assoc]
    · have hcont' : ¬ (bundleNewSq frames (31 * c) < gdmPrevSq frames c * (16 / 25) ∧
          bundleNewSq frames (31 * c) > 100 ∧ c < 10) := by
        simp only [gdmContinue, gdmNewSq] at hcont
        exact hcont
      refine ⟨c, le_rfl, hc, ?_, hcont, ?_⟩
      · intro j hj1 hj2
        exact absurd hj2 (by omega)
      · rw [gdmGo_step_stop frames f fills (31 * c) (gdmPrevSq frames c) c hcont']
        rw [show c + 1 - c = 1 by omega, fillsFromTo_one]

theorem fillsFromTo_eq (frames : ℕ → FrameSample) :
    ∀ n c, fillsFromTo frames c n = (List.range (31 * n)).map (fun k => (frames (31 * c + k)).fill)
  | 0, c => by simp [fillsFromTo]
  | n + 1, c => by
    rw [fillsFromTo, fillsFromTo_eq frames n (c + 1)]
    have h1 : bundleFills frames (31 * c) =
        (List.range 31).map (fun k => (frames (31 * c + k)).fill) := by
      rw [bundleFills, List.map_map]
      rfl
    have hfun : (fun k => (frames (31 * (c + 1) + k)).fill) =
        ((fun k => (frames (31 * c + k)).fill) ∘ (fun k => 31 + k)) := by
      funext k
      simp only [Function.comp]
      rw [show 31 * c + (31 + k) = 31 * (c + 1) + k by ring]
    rw [h1, hfun, ← List.map_map, ← List.map_append, ← List.range_add]
    rw [show 31 + 31 * n = 31 * (n + 1) by ring]

theorem fillsFromTo_allFills (frames : ℕ → FrameSample) (n : ℕ) :
    fillsFromTo frames 0 n = allFills frames n := by
  rw [fillsFromTo_eq frames n 0, allFills]
  simp

/-- C7 (amended): the final fill rate is the median over all sampled frames
(the `fill_rates` vector accumulates across bundles), but the final RMS is
the median over the RMS values of the LAST bundle only (`rmses.clear()` at
the top of the do/while loop discards every earlier bundle); the loop stops
at the first bundle failing the continue condition, after at most 11
bundles.  The claim's concrete instance holds: for a stream of identical
plane-fit results with fill 80 and RMS 2, a single bundle runs (2 > 10
fails) and the result is exactly (80, 2). -/
theorem get_depth_metrics_median (frames : ℕ → FrameSample) :
    (∃ k, k ≤ 10 ∧ (∀ j, j < k → gdmContinue frames j) ∧ ¬ gdmContinue frames k ∧
      get_depth_metrics frames =
        (medianQ (allFills frames (k + 1)), medianQ (bundleRms frames (31 * k)))) ∧
    get_depth_metrics (fun _ => ⟨80, 2, true⟩) = (80, 2) := by
  constructor
  · obtain ⟨k, _, hk2, hk3, hk4, hk5⟩ := gdmGo_run frames 11 0 [] (by norm_num) (by norm_num)
    refine ⟨k, hk2, fun j hj => hk3 j (Nat.zero_le j) hj, hk4, ?_⟩
    have hk5' : gdmGo frames 11 [] 0 (1000 * 1000) 0 =
        ([] ++ fillsFromTo frames 0 (k + 1 - 0), bundleRms frames (31 * k)) := hk5
    simp only [get_depth_metrics, hk5', List.nil_append, Nat.sub_zero, fillsFromTo_allFills]
  · have hb : bundleNewSq (fun _ => (⟨80, 2, true⟩ : FrameSample)) 0 = 2 * 2 :=
      bundleNewSq_const _ 0 2 (fun _ _ => rfl) (fun _ _ => rfl)
    have hstop : ¬ (bundleNewSq (fun _ => (⟨80, 2, true⟩ : FrameSample)) 0 <
        (1000 * 1000 : ℚ) * (16 / 25) ∧
        bundleNewSq (fun _ => (⟨80, 2, true⟩ : FrameSample)) 0 > 100 ∧ (0 : ℕ) < 10) := by
      rw [hb]
      intro h
      exact absurd h.2.1 (by norm_num)
    have hrun : gdmGo (fun _ => (⟨80, 2, true⟩ : FrameSample)) 11 [] 0 (1000 * 1000) 0 =
        (List.replicate 31 80, List.replicate 31 2) := by
      rw [show (11 : ℕ) = 10 + 1 from rfl,
        gdmGo_step_stop _ 10 [] 0 (1000 * 1000) 0 hstop, List.nil_append,
        bundleFills_const _ 0 80 (fun _ _ => rfl),
        bundleRms_const _ 0 2 (fun _ _ => rfl) (fun _ _ => rfl)]
    simp only [get_depth_metrics, hrun]
    rw [medianQ_replicate 31 80 (by norm_num), medianQ_replicate 31 2 (by norm_num)]

/-- C7 counterexample: a noisy first bundle (RMS 15) followed by a clean one
(RMS 2).  The loop re-samples once, so `get_depth_metrics` returns RMS 2 —
the median of the final bundle only — while the median RMS over all 62
sampled frames is 15. -/
theorem get_depth_metrics_two_bundle_cex :
    get_depth_metrics framesTwoBundles = (80, 2) ∧
    medianQ (allRms framesTwoBundles 2) = 15 ∧ ((2 : ℚ) ≠ 15) := by
  have hflo : ∀ n, n < 31 → framesTwoBundles n = ⟨80, 15, true⟩ := by
    intro n hn
    simp only [framesTwoBundles]
    rw [if_pos hn]
  have hfhi : ∀ n, 31 ≤ n → framesTwoBundles n = ⟨80, 2, true⟩ := by
    intro n hn
    simp only [framesTwoBundles]
    rw [if_neg (by omega)]
  have hb0 : bundleNewSq framesTwoBundles 0 = 15 * 15 :=
    bundleNewSq_const _ 0 15 (fun k hk => by rw [hflo (0 + k) (by omega)])
      (fun k hk => by rw [hflo (0 + k) (by omega)])
  have hb1 : bundleNewSq framesTwoBundles (0 + 31) = 2 * 2 :=
    bundleNewSq_const _ (0 + 31) 2 (fun k hk => by rw [hfhi (0 + 31 + k) (by omega)])
      (fun k hk => by rw [hfhi (0 + 31 + k) (by omega)])
  have hgo : bundleNewSq framesTwoBundles 0 < (1000 * 1000 : ℚ) * (16 / 25) ∧
      bundleNewSq framesTwoBundles 0 > 100 ∧ (0 : ℕ) < 10 := by
    rw [hb0]
    refine ⟨by norm_num, by norm_num, by norm_num⟩
  have hstop : ¬ (bundleNewSq framesTwoBundles (0 + 31) <
      bundleNewSq framesTwoBundles 0 * (16 / 25) ∧
      bundleNewSq framesTwoBundles (0 + 31) > 100 ∧ (0 + 1 : ℕ) < 10) := by
    rw [hb1]
    intro h
    exact absurd h.2.1 (by norm_num)
  have hrun : gdmGo framesTwoBundles 11 [] 0 (1000 * 1000) 0 =
      (List.replicate 62 80, List.replicate 31 2) := by
    rw [show (11 : ℕ) = 10 + 1 from rfl, gdmGo_step_continue _ 10 [] 0 (1000 * 1000) 0 hgo,
      show (10 : ℕ) = 9 + 1 from rfl,
      gdmGo_step_stop _ 9 ([] ++ bundleFills framesTwoBundles 0) (0 + 31)
        (bundleNewSq framesTwoBundles 0) (0 + 1) hstop]
    rw [List.nil_append, bundleFills_const _ 0 80 (fun k hk => by rw [hflo (0 + k) (by omega)]),
      bundleFills_const _ (0 + 31) 80 (fun k hk => by rw [hfhi (0 + 31 + k) (by omega)]),
      bundleRms_const _ (0 + 31) 2 (fun k hk => by rw [hfhi (0 + 31 + k) (by omega)])
        (fun k hk => by rw [hfhi (0 + 31 + k) (by omega)])]
    rw [← List.replicate_add]
  refine ⟨?_, ?_, by norm_num⟩
  · simp only [get_depth_metrics, hrun]
    rw [medianQ_replicate 62 80 (by norm_num), medianQ_replicate 31 2 (by norm_num)]
  · have hA : (List.range 31).map (fun k => (framesTwoBundles k).rms) =
        List.replicate 31 (15 : ℚ) := by
      refine List.eq_replicate_iff.2 ⟨by simp, ?_⟩
      intro b hb
      simp only [List.mem_map, List.mem_range] at hb
      obtain ⟨k, hk, hbk⟩ := hb
      rw [← hbk, hflo k hk]
    have hB : (List.range 31).map ((fun k => (framesTwoBundles k).rms) ∘ (fun k => 31 + k)) =
        List.replicate 31 (2 : ℚ) := by
      refine List.eq_replicate_iff.2 ⟨by simp, ?_⟩
      intro b hb
      simp only [List.mem_map, List.mem_range, Function.comp] at hb
      obtain ⟨k, hk, hbk⟩ := hb
      rw [← hbk, hfhi (31 + k) (by omega)]
    have hall : allRms framesTwoBundles 2 = List.replicate 31 15 ++ List.replicate 31 2 := by
      rw [allRms, show (31 * 2 : ℕ) = 31 + 31 from rfl, List.range_add, List.map_append,
        List.map_map, hA, hB]
    rw [hall, medianQ_two_blocks 15 2 (by norm_num)]

end OnChipCalib

